import Mathlib

/-!
# go-tarantool `IprotoServer` (server.go): handshake, authentication, dispatch, teardown

A shallow embedding of `src/server.go`.  Go byte strings and byte slices are lists of
naturals below 256.  Library calls whose outcome the program cannot control (the random
source, the buffered writer, the frame reader) are explicit environment values.  The
goroutines of a connection are an interleaving of atomic actions, one per access to what
they share: the variable `body` of `read`, the channel `s.output`, the channel `s.quit`.
-/

namespace Tarantool

/-- Go `[]byte` and `string` values: a list of bytes, each a natural below 256. -/
abbrev Bytes := List Nat

/-- Go `error` values; `Option Error` is an `error` that may be `nil`. -/
abbrev Error := String

/-- Bytes of an ASCII string literal of the source. -/
def ascii (s : String) : Bytes := s.toList.map Char.toNat

/-! ## Constants of server.go -/

def greetingSize : Nat := 128
def saltSize : Nat := 32
def tarantoolVersion : Bytes := ascii "Tarantool 1.6.8 (Binary)"
def connBufSize : Nat := 128 * 1024

/-! ## `unicode/utf8.RuneCountInString`, which `fmt` uses to measure a `%-63s` operand -/

/-- Entry of the `first` table of `unicode/utf8` for a leading byte: `0xF0` ASCII,
`0xF1` invalid, otherwise the accept-range index in the high nibble and the sequence
size in the low three bits. -/
def utf8First (c : Nat) : Nat :=
  if c < 0x80 then 0xF0
  else if c < 0xC2 then 0xF1
  else if c < 0xE0 then 0x02
  else if c = 0xE0 then 0x13
  else if c < 0xED then 0x03
  else if c = 0xED then 0x23
  else if c < 0xF0 then 0x03
  else if c = 0xF0 then 0x34
  else if c < 0xF4 then 0x04
  else if c = 0xF4 then 0x44
  else 0xF1

/-- The `acceptRanges` table of `unicode/utf8`: bounds `(lo, hi)` of the second byte. -/
def utf8AcceptRange (i : Nat) : Nat × Nat :=
  match i with
  | 0 => (0x80, 0xBF)
  | 1 => (0xA0, 0xBF)
  | 2 => (0x80, 0x9F)
  | 3 => (0x90, 0xBF)
  | 4 => (0x80, 0x8F)
  | _ => (0, 0)

/-- Number of bytes the loop body of `RuneCountInString` advances over at the head of
the non-empty remainder `s` (always between 1 and 4, never more than `s.length`). -/
def utf8Advance (s : Bytes) : Nat :=
  let c := s.getD 0 0
  if c < 0x80 then 1
  else
    let x := utf8First c
    if x = 0xF1 then 1
    else
      let size := x % 8
      if size > s.length then 1
      else
        let accept := utf8AcceptRange (x / 16)
        let c1 := s.getD 1 0
        if c1 < accept.1 ∨ accept.2 < c1 then 1
        else if size = 2 then 2
        else
          let c2 := s.getD 2 0
          if c2 < 0x80 ∨ 0xBF < c2 then 1
          else if size = 3 then 3
          else
            let c3 := s.getD 3 0
            if c3 < 0x80 ∨ 0xBF < c3 then 1
            else size

/-- The loop of `RuneCountInString`: one rune counted per iteration; `fuel` bounds the
number of iterations. -/
def runeCountLoop : Nat → Bytes → Nat
  | 0, _ => 0
  | fuel + 1, s =>
    match s with
    | [] => 0
    | _ :: _ => 1 + runeCountLoop fuel (s.drop (utf8Advance s))

/-- Go `utf8.RuneCountInString`: every iteration consumes at least one byte, so
`s.length` iterations always reach the end of the string. -/
def RuneCountInString (s : Bytes) : Nat := runeCountLoop s.length s

/-! ## `fmt` verbs used by `greet` -/

/-- The verb `fmt.Sprintf("%-<wid>s", s)`: the operand, then `wid - RuneCount(s)` spaces when
that is positive; the operand is never truncated (no precision is given). -/
def padString (wid : Nat) (s : Bytes) : Bytes :=
  s ++ List.replicate (wid - RuneCountInString s) 32

/-! ## `encoding/base64.StdEncoding.EncodeToString` -/

/-- The standard base64 alphabet (`encodeStd`). -/
def encodeStd : Bytes :=
  ascii "ABCDEFGHIJKLMNOPQRSTUVWXYZabcdefghijklmnopqrstuvwxyz0123456789+/"

/-- The padding character `'='` (`StdPadding`). -/
def stdPadding : Nat := 61

/-- Table lookup `enc.encode[v]`. -/
def encodeChar (v : Nat) : Nat := encodeStd.getD v 0

/-- Go `Encoding.Encode` for `StdEncoding`: three source bytes become four characters; a
remainder of one or two bytes becomes two or three characters and `=` padding.  For
bytes, `a<<16 | b<<8 | c` is `a*65536 + b*256 + c` and `val>>k & 0x3F` is
`val / 2^k % 64`. -/
def base64Encode : Bytes → Bytes
  | a :: b :: c :: rest =>
    let val := a * 65536 + b * 256 + c
    encodeChar (val / 262144 % 64) :: encodeChar (val / 4096 % 64) ::
      encodeChar (val / 64 % 64) :: encodeChar (val % 64) :: base64Encode rest
  | [a, b] =>
    let val := a * 65536 + b * 256
    [encodeChar (val / 262144 % 64), encodeChar (val / 4096 % 64),
      encodeChar (val / 64 % 64), stdPadding]
  | [a] =>
    let val := a * 65536
    [encodeChar (val / 262144 % 64), encodeChar (val / 4096 % 64), stdPadding, stdPadding]
  | [] => []

/-- A byte that may occur in a base64 text: ASCII, and neither newline nor space. -/
def b64Byte (c : Nat) : Prop := c < 0x80 ∧ c ≠ 10 ∧ c ≠ 32

/-! ## The greeting text formatted by `greet` (server.go lines 94-98) -/

/-- Source line `line1 = fmt.Sprintf("%s %s", tarantoolVersion, s.uuid)`. -/
def greetLine1 (uuid : Bytes) : Bytes := tarantoolVersion ++ [32] ++ uuid

/-- Source line `line2 = fmt.Sprintf("%s", base64.StdEncoding.EncodeToString(s.salt))`. -/
def greetLine2 (salt : Bytes) : Bytes := base64Encode salt

/-- Source line `greeting = fmt.Sprintf("%-63s\n%-63s\n", line1, line2)`, the column width being
`greetingSize/2-1`. -/
def greeting (uuid salt : Bytes) : Bytes :=
  padString (greetingSize / 2 - 1) (greetLine1 uuid) ++ [10] ++
    padString (greetingSize / 2 - 1) (greetLine2 salt) ++ [10]

/-! ## Reading the greeting back (what a client does with the 128 bytes) -/

/-- The second line of a greeting: the bytes between the first and the second newline. -/
def secondLine (g : Bytes) : Bytes :=
  ((g.dropWhile (fun b => b != 10)).drop 1).takeWhile (fun b => b != 10)

/-- A line with its trailing space padding removed. -/
def trimPadding (l : Bytes) : Bytes := (l.reverse.dropWhile (fun b => b == 32)).reverse

/-- Inverse table lookup (`decodeMap`): the position of a character in the alphabet. -/
def decodeChar (c : Nat) : Option Nat :=
  let i := encodeStd.indexOf c
  if i < 64 then some i else none

/-- Standard base64 decoding with `=` padding (RFC 4648): four characters give three
bytes; a final quantum ending in `==` gives one byte, one ending in `=` gives two. -/
def base64Decode : Bytes → Option Bytes
  | [] => some []
  | c0 :: c1 :: c2 :: c3 :: rest =>
    match decodeChar c0, decodeChar c1 with
    | some v0, some v1 =>
      if c2 = stdPadding ∧ c3 = stdPadding ∧ rest = [] then
        some [v0 * 4 + v1 / 16]
      else
        match decodeChar c2 with
        | none => none
        | some v2 =>
          if c3 = stdPadding ∧ rest = [] then
            some [v0 * 4 + v1 / 16, v1 % 16 * 16 + v2 / 4]
          else
            match decodeChar c3, base64Decode rest with
            | some v3, some tail =>
              some ((v0 * 4 + v1 / 16) :: (v1 % 16 * 16 + v2 / 4) :: (v2 % 4 * 64 + v3) :: tail)
            | _, _ => none
    | _, _ => none
  | _ => none

/-! ## The server object, `Accept`, `greet` and `Close` -/

/-- Identity of a `net.Conn` value handed to `Accept`. -/
abbrev Conn := Nat

/-- Effects of the server on its surroundings, in program order. -/
inductive Event where
  /-- The call `fmt.Fprintf(s.writer, "%s", greeting)` with this text. -/
  | write (p : Bytes)
  /-- The call `s.writer.Flush()`. -/
  | flush
  /-- The call `Close()` on this connection. -/
  | connClose (c : Conn)
  /-- A successful `close(s.quit)`: the cancellation signal was raised. -/
  | quitClose
  /-- The statement `go s.loop()`: the read and write loops were started. -/
  | loopStart
  /-- The call panicked (close of a nil or closed channel, nil connection). -/
  | panic
  deriving DecidableEq, Repr

/-- The struct `IprotoServer`.  `quit` is `none` for a nil channel and `some closed` for a channel
made by `Accept`; `closeOnce` is the done flag of the `sync.Once`.  `reader`, `writer`
and `output` are made afresh by every `Accept` and hold nothing the modelled calls
read back, so they carry no field. -/
structure IprotoServer (Query Result : Type) where
  conn : Option Conn
  uuid : Bytes
  salt : Bytes
  quit : Option Bool
  handler : Query → Result
  closeOnce : Bool

/-- The constructor `NewIprotoServer`: no connection, nil salt, nil `quit` channel, unused `closeOnce`. -/
def NewIprotoServer {Query Result : Type} (uuid : Bytes) (handler : Query → Result) :
    IprotoServer Query Result :=
  { conn := none, uuid := uuid, salt := [], quit := none, handler := handler,
    closeOnce := false }

/-- What the surroundings do during one `greet`: `randRead` is the outcome of
`rand.Read(s.salt)` (the 32 bytes filled in, or an error); `largeWrite` is the outcome
`(n, err)` of writing a text larger than the buffer straight to the connection;
`flush` is the outcome of `s.writer.Flush()`. -/
structure GreetEnv where
  randRead : Except Error Bytes
  largeWrite : Bytes → Nat × Option Error
  flush : Option Error

/-- The call `fmt.Fprintf(s.writer, "%s", g)` on the writer `Accept` has just made with
`bufio.NewWriterSize(conn, connBufSize)`: a text that fits the empty buffer is copied
into it and reported written in full with a nil error. -/
def fprintf (env : GreetEnv) (g : Bytes) : Nat × Option Error :=
  if g.length ≤ connBufSize then (g.length, none) else env.largeWrite g

/-- The method `IprotoServer.greet`: returns the new server state, the returned `err` and the
effects.  `err` is the named result: the bare `return` after the write hands back
whatever `Fprintf` assigned to it. -/
def greet {Query Result : Type} (env : GreetEnv) (s : IprotoServer Query Result) :
    IprotoServer Query Result × Option Error × List Event :=
  let s := { s with salt := List.replicate saltSize 0 }
  match env.randRead with
  | .error e => (s, some e, [])
  | .ok bytes =>
    let s := { s with salt := bytes }
    let g := greeting s.uuid s.salt
    let (n, err) := fprintf env g
    if err ≠ none ∨ n ≠ greetingSize then (s, err, [Event.write g])
    else (s, env.flush, [Event.write g, Event.flush])

/-- The method `IprotoServer.Accept`. -/
def Accept {Query Result : Type} (env : GreetEnv) (s : IprotoServer Query Result)
    (conn : Conn) : IprotoServer Query Result × List Event :=
  let s := { s with conn := some conn, quit := some false }
  match greet env s with
  | (s, some _, ev) => (s, ev ++ [Event.connClose conn])
  | (s, none, ev) => (s, ev ++ [Event.loopStart])

/-- The method `IprotoServer.Close`: `closeOnce.Do` runs its function on the first call only and
counts it as done even when it panics. -/
def Close {Query Result : Type} (s : IprotoServer Query Result) :
    IprotoServer Query Result × List Event :=
  if s.closeOnce then (s, [])
  else
    let s := { s with closeOnce := true }
    match s.quit with
    | none => (s, [Event.panic])
    | some true => (s, [Event.panic])
    | some false =>
      let s := { s with quit := some true }
      match s.conn with
      | none => (s, [Event.quitClose, Event.panic])
      | some c => (s, [Event.quitClose, Event.connClose c])

/-- A call of the public API on one server instance. -/
inductive Call where
  | accept (env : GreetEnv) (conn : Conn)
  | close

/-- A sequence of public calls on one instance, with their effects in order. -/
def runCalls {Query Result : Type} :
    IprotoServer Query Result → List Call → IprotoServer Query Result × List Event
  | s, [] => (s, [])
  | s, Call.accept env conn :: rest =>
    let (s1, ev) := Accept env s conn
    let (s2, ev2) := runCalls s1 rest
    (s2, ev ++ ev2)
  | s, Call.close :: rest =>
    let (s1, ev) := Close s
    let (s2, ev2) := runCalls s1 rest
    (s2, ev ++ ev2)

/-! ## `CheckAuth` -/

/-- The loop `for i, v := range hash` of `CheckAuth`; `none` is the run-time panic of an
index out of range in `scr[i]`. -/
def CheckAuth.loop (scr : Bytes) : Nat → Bytes → Option Bool
  | _, [] => some true
  | i, v :: rest =>
    match scr.get? i with
    | none => none
    | some x => if v ≠ x then some false else CheckAuth.loop scr (i + 1) rest

/-- The method `IprotoServer.CheckAuth`; `scramble` is the package's challenge function. -/
def CheckAuth {Query Result : Type} (scramble : Bytes → Bytes → Except Error Bytes)
    (s : IprotoServer Query Result) (hash : Bytes) (password : Bytes) : Option Bool :=
  match scramble s.salt password with
  | .error _ => some false
  | .ok scr =>
    if scr.length ≠ hash.length then some false
    else CheckAuth.loop scr 0 hash

/-! ## The read loop and the tasks it dispatches (server.go lines 114-156) -/

/-- Modelled from the spec: the `Packet` struct is declared elsewhere in the package.
It holds the operation code, the correlation identifier and, for a request, the decoded
`Query` (`request` is `none` for the nil interface value). -/
structure Packet (Query : Type) where
  code : Nat
  requestID : Nat
  request : Option Query

/-- The declarations of the package that `read` uses and server.go does not define:
the constant `PingRequest`, `decodePacket`, `packIprotoOk` and `Result.pack`. -/
structure Codec (Query Result : Type) where
  PingRequest : Nat
  decodePacket : Bytes → Except Error (Packet Query)
  packIprotoOk : Nat → Bytes
  pack : Result → Nat → Bytes × Option Error

/-- Capacity of the channel made by `make(chan []byte, 1024)` in `Accept`. -/
def outputCap : Nat := 1024

/-- Program counter of `read`. -/
inductive ReaderPc where
  /-- At the `select` at the top of `READER_LOOP`. -/
  | select
  /-- After `body, err = readMessage(r)` returned a nil error (line 128), before
  `decodePacket(bytes.NewBuffer(body))` (line 133). -/
  | decode
  /-- Out of the loop: `s.Close()` has been called (line 155). -/
  | exited
  deriving DecidableEq, Repr

/-- Program counter of a dispatched task (the `go func(packet *Packet)` of `read`). -/
inductive TaskPc (Result : Type) where
  /-- Not yet run. -/
  | start
  /-- The handler has returned `res`; next is `body, _ = res.pack(packet.requestID)`. -/
  | called (res : Result)
  /-- The variable `body` has been assigned; next is the send statement
  `s.output <- body`, which first evaluates `body`. -/
  | packed
  /-- The operand of the send statement has been evaluated to `v`; the send itself waits
  until the channel has room. -/
  | sending (v : Bytes)
  /-- The task has returned. -/
  | done
  /-- The type assertion `packet.request.(Query)` failed on a nil request. -/
  | panicked

/-- A dispatched task: its own `packet` argument (the `Packet` that `decodePacket`
returned) and program counter, with a record of the handler calls it has made and of
the values it has sent on `s.output`. -/
structure Task (Query Result : Type) where
  packet : Packet Query
  pc : TaskPc Result
  calls : List Query
  sent : List Bytes

/-- State of one connection while the loops run.  `input` lists the outcomes
`(body, err)` of the `readMessage` calls still to come; `body` is the variable `body` of
`read` (line 117), which the closures of the tasks capture; `rpc` is the program counter
of `read`; `closeCalls` counts the calls of `s.Close()` made by `read`; `queue` is the
content of the channel `s.output`, at most `outputCap` values; `output` lists every
value ever sent on `s.output`, in order; `wrunning` tells whether `write` is still in
`WRITER_LOOP`; `written` lists the values `write` has passed to `w.Write`. -/
structure ReadState (Query Result : Type) where
  srv : IprotoServer Query Result
  events : List Event
  input : List (Bytes × Option Error)
  body : Bytes
  rpc : ReaderPc
  closeCalls : Nat
  tasks : List (Task Query Result)
  queue : List Bytes
  output : List Bytes
  wrunning : Bool
  written : List Bytes

/-- Leaving `READER_LOOP`: the call `s.Close()` on line 155. -/
def readExit {Query Result : Type} (σ : ReadState Query Result) : ReadState Query Result :=
  { σ with
    srv := (Close σ.srv).1
    events := σ.events ++ (Close σ.srv).2
    rpc := .exited
    closeCalls := σ.closeCalls + 1 }

/-- One action of `read`.  At the `select`: `case <-s.quit` when the channel is closed,
otherwise the `default` branch, where `readMessage` assigns `body` and `err` and `err`
(a variable only `read` touches) is tested; with no input left `readMessage` blocks.
At `decode`: `decodePacket` is applied to the value the shared variable `body` has at
that moment, `err` is tested and a task is dispatched for a packet with a request. -/
def readStep {Query Result : Type} (codec : Codec Query Result)
    (σ : ReadState Query Result) : ReadState Query Result :=
  match σ.rpc with
  | .exited => σ
  | .select =>
    if σ.srv.quit = some true then readExit σ
    else
      match σ.input with
      | [] => σ
      | (b, some _) :: rest => readExit { σ with input := rest, body := b }
      | (b, none) :: rest => { σ with input := rest, body := b, rpc := .decode }
  | .decode =>
    match codec.decodePacket σ.body with
    | .error _ => readExit σ
    | .ok packet =>
      match packet.request with
      | none => { σ with rpc := .select }
      | some _ =>
        { σ with
          rpc := .select
          tasks := σ.tasks ++ [{ packet := packet, pc := .start, calls := [], sent := [] }] }

/-- One action of task `i`.  From `start`: the test `byte(packet.code) == PingRequest`,
then either the evaluation of `packIprotoOk(packet.requestID)` as operand of the send,
or the handler call.  From `called`: the assignment to `body`.  From `packed`: the
evaluation of `body` as operand of the send.  From `sending`: the send, which takes
place only when the channel holds fewer than `outputCap` values and otherwise waits. -/
def taskStep {Query Result : Type} (codec : Codec Query Result)
    (σ : ReadState Query Result) (i : Nat) : ReadState Query Result :=
  match σ.tasks.get? i with
  | none => σ
  | some t =>
    match t.pc with
    | .start =>
      if t.packet.code % 256 = codec.PingRequest then
        { σ with
          tasks := σ.tasks.set i { t with pc := .sending (codec.packIprotoOk t.packet.requestID) } }
      else
        match t.packet.request with
        | none => { σ with tasks := σ.tasks.set i { t with pc := .panicked } }
        | some q =>
          { σ with
            tasks := σ.tasks.set i
              { t with pc := .called (σ.srv.handler q), calls := t.calls ++ [q] } }
    | .called res =>
      { σ with
        body := (codec.pack res t.packet.requestID).1
        tasks := σ.tasks.set i { t with pc := .packed } }
    | .packed => { σ with tasks := σ.tasks.set i { t with pc := .sending σ.body } }
    | .sending v =>
      if σ.queue.length < outputCap then
        { σ with
          tasks := σ.tasks.set i { t with pc := .done, sent := t.sent ++ [v] }
          queue := σ.queue ++ [v]
          output := σ.output ++ [v] }
      else σ
    | .done => σ
    | .panicked => σ

/-- What `write` does next, as far as the surroundings decide it: receive a value and
pass it to `w.Write`, which succeeds (`recv true`) or fails (`recv false`); take the
branch `case <-s.quit`; or find the `Flush` of the `default` branch failing. -/
inductive WriterChoice where
  | recv (ok : Bool)
  | quit
  | flushFail
  deriving DecidableEq, Repr

/-- Leaving `WRITER_LOOP`: the call `s.Close()` on line 201. -/
def writeExit {Query Result : Type} (σ : ReadState Query Result) : ReadState Query Result :=
  { σ with
    srv := (Close σ.srv).1
    events := σ.events ++ (Close σ.srv).2
    wrunning := false }

/-- One action of `write` (lines 158-202), for the outer and the inner `select` alike.
A receive needs a value in the channel; the branch `case <-s.quit` needs the closed
channel (the result of its `Flush` is ignored); the `default` branch is taken only when
neither is ready.  A successful `Flush` changes nothing that is modelled.  Whichever way
`write` leaves its loop, it calls `s.Close()`. -/
def writeStep {Query Result : Type} (c : WriterChoice)
    (σ : ReadState Query Result) : ReadState Query Result :=
  if σ.wrunning = false then σ
  else
    match c with
    | .recv ok =>
      match σ.queue with
      | [] => σ
      | m :: rest =>
        if ok then { σ with queue := rest, written := σ.written ++ [m] }
        else writeExit { σ with queue := rest }
    | .quit => if σ.srv.quit = some true then writeExit σ else σ
    | .flushFail =>
      if σ.queue = [] ∧ σ.srv.quit ≠ some true then writeExit σ else σ

/-- The goroutines of one connection: `read`, the dispatched tasks, `write`, and any
other caller of `Close` (the application).  `tear v` stands for a racing access to the
variable `body`, whose slice header is not written in one piece: it may leave any value
`v` in `body`. -/
inductive Tid where
  | reader
  | task (i : Nat)
  | writer (c : WriterChoice)
  | closer
  | tear (v : Bytes)
  deriving DecidableEq, Repr

/-- One atomic action of the chosen goroutine. -/
def step {Query Result : Type} (codec : Codec Query Result) (tid : Tid)
    (σ : ReadState Query Result) : ReadState Query Result :=
  match tid with
  | .reader => readStep codec σ
  | .task i => taskStep codec σ i
  | .writer c => writeStep c σ
  | .closer => { σ with srv := (Close σ.srv).1, events := σ.events ++ (Close σ.srv).2 }
  | .tear v => { σ with body := v }

/-- An interleaving: the actions of the goroutines in the order of the schedule. -/
def run {Query Result : Type} (codec : Codec Query Result) (sch : List Tid)
    (σ : ReadState Query Result) : ReadState Query Result :=
  sch.foldl (fun σ tid => step codec tid σ) σ

/-- The state in which `go s.loop()` starts `read` and `write` on an accepted server. -/
def readInit {Query Result : Type} (srv : IprotoServer Query Result)
    (input : List (Bytes × Option Error)) : ReadState Query Result :=
  { srv := srv, events := [], input := input, body := [], rpc := .select, closeCalls := 0,
    tasks := [], queue := [], output := [], wrunning := true, written := [] }

/-! ## Concrete instances used to evaluate the definitions -/

/-- A 39-character identifier, one character more than fits the first line. -/
def longUuid : Bytes := ascii "0123456789abcdef0123456789abcdef0123456"

/-- An identifier that contains a newline byte: `a`, newline, `b`. -/
def newlineUuid : Bytes := [97, 10, 98]

/-- A 36-character identifier in the usual 8-4-4-4-12 form. -/
def shortUuid : Bytes := ascii "123e4567-e89b-12d3-a456-426614174000"

/-- The salt of `okEnv`: 32 zero bytes. -/
def zeroSalt : Bytes := List.replicate 32 0

/-- A connection on which the random source, the writer and the flush all succeed; the
salt is 32 zero bytes. -/
def okEnv : GreetEnv :=
  { randRead := .ok zeroSalt, largeWrite := fun p => (p.length, none),
    flush := none }

/-- A connection whose random source fails, so that the handshake fails. -/
def failEnv : GreetEnv :=
  { randRead := .error "rand", largeWrite := fun p => (p.length, none), flush := none }

/-- A toy codec: a frame `[code, id]` is a request whose query is `id`, a frame
`[code, id, r]` is a response (it carries no request), any other frame is malformed;
`PingRequest` is 64; a result `r` for request `id` packs to `[0, id, r]` and the canned
reply to `[0, id, 0]`. -/
def toyCodec : Codec Nat Nat :=
  { PingRequest := 64
    decodePacket := fun b =>
      match b with
      | [code, id] => .ok { code := code, requestID := id, request := some id }
      | [code, id, _] => .ok { code := code, requestID := id, request := none }
      | _ => .error "malformed"
    packIprotoOk := fun id => [0, id, 0]
    pack := fun r id => ([0, id, r], none) }

/-- A toy handler: the result of query `q` is `q + 100`. -/
def toyHandler (q : Nat) : Nat := q + 100

/-- A server with the 36-character identifier, accepted on connection 7 with `okEnv`. -/
def toyServer : IprotoServer Nat Nat :=
  (Accept okEnv (NewIprotoServer shortUuid toyHandler) 7).1

/-- The frame of a ping with correlation identifier 6, for the toy codec. -/
def pingFrame : Bytes := [64, 6]

/-- A client that sends 1025 pings and then closes its side: 1025 frames, then the
end-of-file error of `readMessage`. -/
def floodInput : List (Bytes × Option Error) :=
  List.replicate 1025 (pingFrame, none) ++ [([], some "EOF")]

/-- A schedule on `floodInput`: `read` takes in the 1025 frames and dispatches 1025
tasks, meets the end of file and leaves its loop (calling `Close`); `write` takes the
branch `case <-s.quit` and leaves too; tasks 0 to 1023 then run to their end, and task
1024 runs up to its send. -/
def floodSchedule : List Tid :=
  List.replicate (2 * 1025) Tid.reader ++ [Tid.reader, Tid.writer WriterChoice.quit] ++
    (List.range 1024).flatMap (fun i => [Tid.task i, Tid.task i]) ++ [Tid.task 1024]

/-- The packet that the toy codec decodes from `pingFrame`. -/
def pingPacket : Packet Nat := { code := 64, requestID := 6, request := some 6 }

/-- The state of `read` between receiving `pingFrame` and decoding it. -/
def pingReadState : ReadState Nat Nat :=
  readStep toyCodec (readInit toyServer [(pingFrame, none)])

/-- A task as `read` dispatches it for packet `p`. -/
def taskStart {Query Result : Type} (p : Packet Query) : Task Query Result :=
  { packet := p, pc := .start, calls := [], sent := [] }

/-- A ping task that has evaluated the canned reply and has not sent it yet. -/
def pingSending {Query Result : Type} (codec : Codec Query Result) (p : Packet Query) :
    Task Query Result :=
  { packet := p, pc := .sending (codec.packIprotoOk p.requestID), calls := [], sent := [] }

/-- A ping task that has returned: no handler call, the canned reply sent once. -/
def pingDone {Query Result : Type} (codec : Codec Query Result) (p : Packet Query) :
    Task Query Result :=
  { packet := p, pc := .done, calls := [], sent := [codec.packIprotoOk p.requestID] }

end Tarantool

namespace Tarantool

/-! ## Rune counting -/

theorem utf8First_size (c : Nat) (h : ¬ c < 0x80) :
    utf8First c = 0xF1 ∨ (2 ≤ utf8First c % 8 ∧ utf8First c % 8 ≤ 4) := by
  unfold utf8First
  split_ifs <;> simp_all

theorem utf8Advance_pos (s : Bytes) : 1 ≤ utf8Advance s := by
  unfold utf8Advance
  dsimp only
  by_cases hc : s.getD 0 0 < 0x80
  · rw [if_pos hc]
  · have hx := utf8First_size _ hc
    rw [if_neg hc]
    split_ifs <;> omega

theorem utf8Advance_ascii (c : Nat) (t : Bytes) (h : c < 0x80) : utf8Advance (c :: t) = 1 := by
  simp [utf8Advance, h]

theorem runeCountLoop_le (fuel : Nat) (s : Bytes) : runeCountLoop fuel s ≤ s.length := by
  induction fuel generalizing s with
  | zero => simp [runeCountLoop]
  | succ f ih =>
    cases s with
    | nil => simp [runeCountLoop]
    | cons c t =>
      have hp := utf8Advance_pos (c :: t)
      have := ih ((c :: t).drop (utf8Advance (c :: t)))
      simp only [runeCountLoop, List.length_drop, List.length_cons] at this ⊢
      omega

theorem runeCountLoop_fuel (f g : Nat) (s : Bytes) (hf : s.length ≤ f) (hg : s.length ≤ g) :
    runeCountLoop f s = runeCountLoop g s := by
  induction f generalizing g s with
  | zero =>
    have : s = [] := List.length_eq_zero.mp (Nat.le_zero.mp hf)
    subst this
    cases g <;> rfl
  | succ f ih =>
    cases s with
    | nil => cases g <;> rfl
    | cons c t =>
      have hp := utf8Advance_pos (c :: t)
      cases g with
      | zero => simp at hg
      | succ g =>
        simp only [List.length_cons] at hf hg
        simp only [runeCountLoop]
        rw [ih g _ (by simp only [List.length_drop, List.length_cons]; omega)
          (by simp only [List.length_drop, List.length_cons]; omega)]

theorem RuneCountInString_le (s : Bytes) : RuneCountInString s ≤ s.length :=
  runeCountLoop_le _ _

theorem RuneCountInString_cons_ascii (c : Nat) (t : Bytes) (h : c < 0x80) :
    RuneCountInString (c :: t) = 1 + RuneCountInString t := by
  simp [RuneCountInString, runeCountLoop, utf8Advance_ascii c t h]

theorem RuneCountInString_append_ascii (p s : Bytes) (h : ∀ b ∈ p, b < 0x80) :
    RuneCountInString (p ++ s) = p.length + RuneCountInString s := by
  induction p with
  | nil => simp
  | cons c t ih =>
    have hc : c < 0x80 := h c (List.mem_cons_self _ _)
    have ht : ∀ b ∈ t, b < 0x80 := fun b hb => h b (List.mem_cons_of_mem _ hb)
    rw [List.cons_append, RuneCountInString_cons_ascii _ _ hc, ih ht, List.length_cons]
    omega

theorem RuneCountInString_ascii (s : Bytes) (h : ∀ b ∈ s, b < 0x80) :
    RuneCountInString s = s.length := by
  have := RuneCountInString_append_ascii s [] h
  simpa [RuneCountInString, runeCountLoop] using this

/-! ## Base64 -/

set_option maxRecDepth 100000 in
theorem encodeChar_spec : ∀ v, v < 64 →
    encodeChar v < 0x80 ∧ encodeChar v ≠ 10 ∧ encodeChar v ≠ 32 ∧ encodeChar v ≠ stdPadding ∧
      decodeChar (encodeChar v) = some v := by
  decide

theorem b64Byte_encodeChar (v : Nat) : b64Byte (encodeChar (v % 64)) :=
  let h := encodeChar_spec (v % 64) (Nat.mod_lt _ (by decide))
  ⟨h.1, h.2.1, h.2.2.1⟩

theorem b64Byte_stdPadding : b64Byte stdPadding := by
  unfold b64Byte stdPadding; decide

theorem base64Encode_bytes (l : Bytes) : ∀ b ∈ base64Encode l, b64Byte b := by
  induction l using base64Encode.induct with
  | case1 a b c rest ih =>
    intro x hx
    simp only [base64Encode, List.mem_cons] at hx
    rcases hx with h | h | h | h | h
    · exact h ▸ b64Byte_encodeChar _
    · exact h ▸ b64Byte_encodeChar _
    · exact h ▸ b64Byte_encodeChar _
    · exact h ▸ b64Byte_encodeChar _
    · exact ih x h
  | case2 a b =>
    intro x hx
    simp only [base64Encode, List.mem_cons, List.mem_singleton, List.not_mem_nil, or_false] at hx
    rcases hx with h | h | h | h
    · exact h ▸ b64Byte_encodeChar _
    · exact h ▸ b64Byte_encodeChar _
    · exact h ▸ b64Byte_encodeChar _
    · exact h ▸ b64Byte_stdPadding
  | case3 a =>
    intro x hx
    simp only [base64Encode, List.mem_cons, List.mem_singleton, List.not_mem_nil, or_false] at hx
    rcases hx with h | h | h | h
    · exact h ▸ b64Byte_encodeChar _
    · exact h ▸ b64Byte_encodeChar _
    · exact h ▸ b64Byte_stdPadding
    · exact h ▸ b64Byte_stdPadding
  | case4 => simp [base64Encode]

theorem base64Encode_length (l : Bytes) : (base64Encode l).length = (l.length + 2) / 3 * 4 := by
  induction l using base64Encode.induct with
  | case1 a b c rest ih =>
    simp only [base64Encode, List.length_cons, ih]
    omega
  | case2 a b => simp [base64Encode]
  | case3 a => simp [base64Encode]
  | case4 => simp [base64Encode]

/-! ## The greeting -/

theorem tarantoolVersion_ascii : ∀ b ∈ tarantoolVersion ++ [32], b < 0x80 := by decide

theorem greetLine1_runes (uuid : Bytes) :
    RuneCountInString (greetLine1 uuid) = 25 + RuneCountInString uuid := by
  unfold greetLine1
  rw [RuneCountInString_append_ascii _ _ tarantoolVersion_ascii]
  rfl

theorem greetLine2_runes (salt : Bytes) (hs : salt.length = 32) :
    RuneCountInString (greetLine2 salt) = 44 ∧ (greetLine2 salt).length = 44 := by
  unfold greetLine2
  have hl : (base64Encode salt).length = 44 := by rw [base64Encode_length, hs]
  rw [RuneCountInString_ascii _ (fun b hb => (base64Encode_bytes salt b hb).1)]
  exact ⟨hl, hl⟩

theorem greeting_length (uuid salt : Bytes) (hs : salt.length = 32) :
    (greeting uuid salt).length = 90 + uuid.length + (38 - RuneCountInString uuid) := by
  have h1 := greetLine1_runes uuid
  have h2 := greetLine2_runes salt hs
  have hl1 : (greetLine1 uuid).length = 25 + uuid.length := by
    simp [greetLine1, tarantoolVersion, ascii]; omega
  simp only [greeting, padString, List.length_append, List.length_replicate, List.length_cons,
    List.length_nil, h1, h2.1, h2.2, hl1, greetingSize]
  omega

theorem newline_offsets (A B : Bytes) (hA : A.length = 63) (hB : B.length = 63) :
    (A ++ [10] ++ B ++ [10]).get? 63 = some 10 ∧ (A ++ [10] ++ B ++ [10]).get? 127 = some 10 := by
  constructor
  · rw [List.append_assoc, List.append_assoc, List.get?_eq_getElem?,
      List.getElem?_append_right (by omega)]
    simp [hA]
  · rw [List.get?_eq_getElem?, List.getElem?_append_right (by simp [hA, hB])]
    simp [hA, hB]

theorem greet_writes {Query Result : Type} (env : GreetEnv) (s : IprotoServer Query Result)
    (salt : Bytes) (hr : env.randRead = .ok salt) :
    (greet env s).2.2.head? = some (Event.write (greeting s.uuid salt)) := by
  unfold greet
  simp only [hr]
  split_ifs <;> rfl

/-- C1 (amended): when the random source yields a 32-byte salt, `greet` hands the text
`greeting uuid salt` to the writer, and that text is exactly `greetingSize` (128) bytes
long if and only if the uuid is at most 38 bytes long and every rune of it is a single
byte; the text is padded to the column width and never truncated. -/
theorem greet_text_size_iff {Query Result : Type} (env : GreetEnv)
    (s : IprotoServer Query Result) (salt : Bytes) (hr : env.randRead = .ok salt)
    (hs : salt.length = saltSize) :
    (greet env s).2.2.head? = some (Event.write (greeting s.uuid salt)) ∧
      ((greeting s.uuid salt).length = greetingSize ↔
        (RuneCountInString s.uuid = s.uuid.length ∧ s.uuid.length ≤ 38)) := by
  refine ⟨greet_writes env s salt hr, ?_⟩
  have hle := RuneCountInString_le s.uuid
  rw [greeting_length _ _ hs]
  unfold greetingSize
  omega

/-- C1 (amended) at the 36-character identifier `shortUuid` and the salt `zeroSalt`. -/
theorem greet_text_size_iff_witness :
    (greet okEnv (NewIprotoServer shortUuid toyHandler)).2.2.head? =
        some (Event.write (greeting shortUuid zeroSalt)) ∧
      ((greeting shortUuid zeroSalt).length = greetingSize ↔
        (RuneCountInString shortUuid = shortUuid.length ∧ shortUuid.length ≤ 38)) :=
  greet_text_size_iff okEnv (NewIprotoServer shortUuid toyHandler) zeroSalt rfl rfl

set_option maxRecDepth 100000 in
/-- C1 (counterexample): for the 39-character identifier `longUuid` and the 32-byte salt
`zeroSalt`, the text `greet` hands to the writer is 129 bytes long, not 128. -/
theorem greet_text_size_counterexample :
    zeroSalt.length = saltSize ∧
      (greet okEnv (NewIprotoServer longUuid toyHandler)).2.2.head? =
        some (Event.write (greeting longUuid zeroSalt)) ∧
      (greeting longUuid zeroSalt).length = 129 ∧
      (greeting longUuid zeroSalt).length ≠ greetingSize := by
  decide

/-- C10: for an ASCII uuid and a 32-byte salt the text formatted by `greet` is
`128 + max(0, len(uuid) - 38)` bytes long (the subtraction is truncated at zero); its
first line, `"Tarantool 1.6.8 (Binary) <uuid>"` padded but never truncated, is
`max(63, 25 + len(uuid))` bytes long; with at most 38 characters the text is exactly 128
bytes with newlines at offsets 63 and 127, and otherwise it is longer than 128 bytes. -/
theorem greeting_length_ascii {Query Result : Type} (env : GreetEnv)
    (s : IprotoServer Query Result) (salt : Bytes) (hr : env.randRead = .ok salt)
    (hs : salt.length = saltSize) (ha : ∀ b ∈ s.uuid, b < 0x80) :
    (greet env s).2.2.head? = some (Event.write (greeting s.uuid salt)) ∧
      (greeting s.uuid salt).length = 128 + (s.uuid.length - 38) ∧
      (padString (greetingSize / 2 - 1) (greetLine1 s.uuid)).length
        = max 63 (25 + s.uuid.length) ∧
      (s.uuid.length ≤ 38 →
        (greeting s.uuid salt).length = 128 ∧
          (greeting s.uuid salt).get? 63 = some 10 ∧
          (greeting s.uuid salt).get? 127 = some 10) ∧
      (38 < s.uuid.length → 128 < (greeting s.uuid salt).length) := by
  have hrc := RuneCountInString_ascii s.uuid ha
  have hlen := greeting_length s.uuid salt hs
  rw [hrc] at hlen
  have h1 := greetLine1_runes s.uuid
  have h2 := greetLine2_runes salt hs
  have hl1 : (greetLine1 s.uuid).length = 25 + s.uuid.length := by
    simp [greetLine1, tarantoolVersion, ascii]; omega
  have hA : (padString (greetingSize / 2 - 1) (greetLine1 s.uuid)).length
      = max 63 (25 + s.uuid.length) := by
    simp only [padString, List.length_append, List.length_replicate, h1, hrc, hl1, greetingSize]
    omega
  have hB : (padString (greetingSize / 2 - 1) (greetLine2 salt)).length = 63 := by
    simp only [padString, List.length_append, List.length_replicate, h2.1, h2.2, greetingSize]
  refine ⟨greet_writes env s salt hr, by omega, hA, ?_, by omega⟩
  intro hle
  refine ⟨by omega, ?_⟩
  have hA63 : (padString (greetingSize / 2 - 1) (greetLine1 s.uuid)).length = 63 := by
    rw [hA]; omega
  exact newline_offsets _ _ hA63 hB

/-- C10 at the 36-character identifier `shortUuid` and the salt `zeroSalt`. -/
theorem greeting_length_ascii_witness :
    (greet okEnv (NewIprotoServer shortUuid toyHandler)).2.2.head? =
        some (Event.write (greeting shortUuid zeroSalt)) ∧
      (greeting shortUuid zeroSalt).length = 128 + (shortUuid.length - 38) ∧
      (padString (greetingSize / 2 - 1) (greetLine1 shortUuid)).length
        = max 63 (25 + shortUuid.length) ∧
      (shortUuid.length ≤ 38 →
        (greeting shortUuid zeroSalt).length = 128 ∧
          (greeting shortUuid zeroSalt).get? 63 = some 10 ∧
          (greeting shortUuid zeroSalt).get? 127 = some 10) ∧
      (38 < shortUuid.length → 128 < (greeting shortUuid zeroSalt).length) :=
  greeting_length_ascii okEnv (NewIprotoServer shortUuid toyHandler) zeroSalt rfl rfl
    (by decide)

/-! ## The second line of the greeting and the salt -/

theorem base64_roundtrip (l : Bytes) (h : ∀ b ∈ l, b < 256) :
    base64Decode (base64Encode l) = some l := by
  induction l using base64Encode.induct with
  | case1 a b c rest ih =>
    have ha : a < 256 := h a (by simp)
    have hb : b < 256 := h b (by simp)
    have hc : c < 256 := h c (by simp)
    have hrest : ∀ x ∈ rest, x < 256 := fun x hx => h x (by simp [hx])
    obtain ⟨-, -, -, -, hd0⟩ :=
      encodeChar_spec ((a * 65536 + b * 256 + c) / 262144 % 64) (Nat.mod_lt _ (by decide))
    obtain ⟨-, -, -, -, hd1⟩ :=
      encodeChar_spec ((a * 65536 + b * 256 + c) / 4096 % 64) (Nat.mod_lt _ (by decide))
    obtain ⟨-, -, -, hn2, hd2⟩ :=
      encodeChar_spec ((a * 65536 + b * 256 + c) / 64 % 64) (Nat.mod_lt _ (by decide))
    obtain ⟨-, -, -, hn3, hd3⟩ :=
      encodeChar_spec ((a * 65536 + b * 256 + c) % 64) (Nat.mod_lt _ (by decide))
    simp only [base64Encode, base64Decode, hd0, hd1, hd2, hd3, hn2, hn3, false_and, if_false,
      ih hrest, Option.some.injEq, List.cons.injEq, and_true]
    omega
  | case2 a b =>
    have ha : a < 256 := h a (by simp)
    have hb : b < 256 := h b (by simp)
    obtain ⟨-, -, -, -, hd0⟩ :=
      encodeChar_spec ((a * 65536 + b * 256) / 262144 % 64) (Nat.mod_lt _ (by decide))
    obtain ⟨-, -, -, -, hd1⟩ :=
      encodeChar_spec ((a * 65536 + b * 256) / 4096 % 64) (Nat.mod_lt _ (by decide))
    obtain ⟨-, -, -, hn2, hd2⟩ :=
      encodeChar_spec ((a * 65536 + b * 256) / 64 % 64) (Nat.mod_lt _ (by decide))
    simp only [base64Encode, base64Decode, hd0, hd1, hd2, hn2, false_and, if_false, true_and,
      if_true, and_self, Option.some.injEq, List.cons.injEq, and_true]
    omega
  | case3 a =>
    have ha : a < 256 := h a (by simp)
    obtain ⟨-, -, -, -, hd0⟩ :=
      encodeChar_spec (a * 65536 / 262144 % 64) (Nat.mod_lt _ (by decide))
    obtain ⟨-, -, -, -, hd1⟩ :=
      encodeChar_spec (a * 65536 / 4096 % 64) (Nat.mod_lt _ (by decide))
    simp only [base64Encode, base64Decode, hd0, hd1, true_and, if_true, and_self,
      Option.some.injEq, List.cons.injEq, and_true]
    omega
  | case4 => simp [base64Encode, base64Decode]

theorem dropWhile_ne_newline (A R : Bytes) (hA : ∀ a ∈ A, a ≠ 10) :
    (A ++ 10 :: R).dropWhile (fun b => b != 10) = 10 :: R := by
  induction A with
  | nil => simp
  | cons a t ih =>
    have ha : a ≠ 10 := hA a (by simp)
    simp only [List.cons_append, List.dropWhile_cons, bne_iff_ne, ne_eq, ha, not_false_eq_true,
      if_true]
    exact ih (fun x hx => hA x (by simp [hx]))

theorem takeWhile_ne_newline (B R : Bytes) (hB : ∀ b ∈ B, b ≠ 10) :
    (B ++ 10 :: R).takeWhile (fun b => b != 10) = B := by
  induction B with
  | nil => simp
  | cons a t ih =>
    have ha : a ≠ 10 := hB a (by simp)
    simp only [List.cons_append, List.takeWhile_cons, bne_iff_ne, ne_eq, ha, not_false_eq_true,
      if_true, List.cons.injEq, true_and]
    exact ih (fun x hx => hB x (by simp [hx]))

theorem secondLine_split (A B : Bytes) (hA : ∀ a ∈ A, a ≠ 10) (hB : ∀ b ∈ B, b ≠ 10) :
    secondLine (A ++ [10] ++ B ++ [10]) = B := by
  unfold secondLine
  have h1 : A ++ [10] ++ B ++ [10] = A ++ 10 :: (B ++ [10]) := by simp
  rw [h1, dropWhile_ne_newline A _ hA, List.drop_one, List.tail_cons]
  exact takeWhile_ne_newline B [] hB

theorem trimPadding_append (E : Bytes) (n : Nat) (hE : ∀ b ∈ E, b ≠ 32) :
    trimPadding (E ++ List.replicate n 32) = E := by
  unfold trimPadding
  rw [List.reverse_append, List.reverse_replicate]
  have h1 : ∀ (L : Bytes), (List.replicate n 32 ++ L).dropWhile (fun b => b == 32)
      = L.dropWhile (fun b => b == 32) := by
    intro L
    induction n with
    | zero => simp
    | succ k ih => simp [List.replicate_succ, ih]
  have h2 : E.reverse.dropWhile (fun b => b == 32) = E.reverse := by
    cases hrev : E.reverse with
    | nil => rfl
    | cons x t =>
      have hx : x ≠ 32 := hE x (by
        have : x ∈ E.reverse := by rw [hrev]; simp
        simpa using this)
      simp [List.dropWhile_cons, hx]
  rw [h1, h2, List.reverse_reverse]

theorem greet_salt {Query Result : Type} (env : GreetEnv) (s : IprotoServer Query Result)
    (salt : Bytes) (hr : env.randRead = .ok salt) : (greet env s).1.salt = salt := by
  unfold greet
  simp only [hr]
  split_ifs <;> rfl

/-- C4 (amended): for every uuid that contains no newline byte and every 32-byte salt
generated by `greet`, the second line of the emitted greeting (the bytes between the
first and the second newline) is the 44-character standard base64 encoding of the salt
followed by 19 spaces and nothing else, and base64-decoding that line with the padding
removed yields exactly the salt stored as the connection's salt. -/
theorem greet_second_line {Query Result : Type} (env : GreetEnv)
    (s : IprotoServer Query Result) (salt : Bytes) (hr : env.randRead = .ok salt)
    (hs : salt.length = saltSize) (hb : ∀ b ∈ salt, b < 256) (hu : ∀ b ∈ s.uuid, b ≠ 10) :
    (greet env s).2.2.head? = some (Event.write (greeting s.uuid salt)) ∧
      (greet env s).1.salt = salt ∧
      (base64Encode salt).length = 44 ∧
      secondLine (greeting s.uuid salt) = base64Encode salt ++ List.replicate 19 32 ∧
      base64Decode (trimPadding (secondLine (greeting s.uuid salt))) = some salt := by
  have h2 := greetLine2_runes salt hs
  have hA : ∀ a ∈ padString (greetingSize / 2 - 1) (greetLine1 s.uuid), a ≠ 10 := by
    intro a ha
    simp only [padString, greetLine1, List.mem_append, List.mem_replicate, List.mem_singleton]
      at ha
    rcases ha with ((ha | ha) | ha) | ha
    · revert a; decide
    · omega
    · exact hu a ha
    · omega
  have hpad : padString (greetingSize / 2 - 1) (greetLine2 salt)
      = base64Encode salt ++ List.replicate 19 32 := by
    simp only [padString, h2.1, greetingSize]
    rfl
  have hB : ∀ b ∈ padString (greetingSize / 2 - 1) (greetLine2 salt), b ≠ 10 := by
    intro b hb
    rw [hpad] at hb
    simp only [List.mem_append, List.mem_replicate] at hb
    rcases hb with hb | hb
    · exact (base64Encode_bytes salt b hb).2.1
    · omega
  have hsec : secondLine (greeting s.uuid salt) = base64Encode salt ++ List.replicate 19 32 := by
    unfold greeting
    rw [secondLine_split _ _ hA hB, hpad]
  refine ⟨greet_writes env s salt hr, greet_salt env s salt hr, h2.2, hsec, ?_⟩
  rw [hsec, trimPadding_append _ _ (fun b hb => (base64Encode_bytes salt b hb).2.2)]
  exact base64_roundtrip salt hb

set_option maxRecDepth 100000 in
/-- C4 (amended) at the identifier `shortUuid`, which has no newline, and `zeroSalt`. -/
theorem greet_second_line_witness :
    (greet okEnv (NewIprotoServer shortUuid toyHandler)).2.2.head? =
        some (Event.write (greeting shortUuid zeroSalt)) ∧
      (greet okEnv (NewIprotoServer shortUuid toyHandler)).1.salt = zeroSalt ∧
      (base64Encode zeroSalt).length = 44 ∧
      secondLine (greeting shortUuid zeroSalt) = base64Encode zeroSalt ++ List.replicate 19 32 ∧
      base64Decode (trimPadding (secondLine (greeting shortUuid zeroSalt))) = some zeroSalt :=
  greet_second_line okEnv (NewIprotoServer shortUuid toyHandler) zeroSalt rfl rfl
    (by decide) (by decide)

set_option maxRecDepth 100000 in
/-- C4 (counterexample): for the identifier `newlineUuid` and the 32-byte salt
`zeroSalt`, the bytes between the first and the second newline of the emitted greeting
are the letter `b` and 35 spaces: they are not the base64 text of the salt followed by
spaces, and they do not decode to the salt. -/
theorem greet_second_line_counterexample :
    zeroSalt.length = saltSize ∧
      (greet okEnv (NewIprotoServer newlineUuid toyHandler)).2.2.head? =
        some (Event.write (greeting newlineUuid zeroSalt)) ∧
      secondLine (greeting newlineUuid zeroSalt) = 98 :: List.replicate 35 32 ∧
      secondLine (greeting newlineUuid zeroSalt) ≠ base64Encode zeroSalt ++ List.replicate 19 32 ∧
      base64Decode (trimPadding (secondLine (greeting newlineUuid zeroSalt))) ≠ some zeroSalt := by
  decide

/-! ## `CheckAuth` -/

theorem CheckAuth_loop_eq (scr : Bytes) (hash : Bytes) (i : Nat)
    (h : i + hash.length = scr.length) :
    CheckAuth.loop scr i hash = some (decide (hash = scr.drop i)) := by
  induction hash generalizing i with
  | nil =>
    have : scr.drop i = [] := List.drop_eq_nil_of_le (by simp at h; omega)
    simp [CheckAuth.loop, this]
  | cons v rest ih =>
    have hi : i < scr.length := by simp only [List.length_cons] at h; omega
    have hd : scr.drop i = scr[i] :: scr.drop (i + 1) := List.drop_eq_getElem_cons hi
    have hg : scr.get? i = some scr[i] := by
      rw [List.get?_eq_getElem?]; exact List.getElem?_eq_getElem hi
    simp only [CheckAuth.loop, hg, hd]
    by_cases hv : v = scr[i]
    · have := ih (i + 1) (by simp only [List.length_cons] at h; omega)
      simp only [hv, ne_eq, not_true_eq_false, if_false, this, Option.some.injEq,
        decide_eq_decide, List.cons.injEq, true_and]
    · simp only [ne_eq, hv, not_false_eq_true, if_true, Option.some.injEq, Bool.false_eq,
        decide_eq_false_iff_not, List.cons.injEq, false_and]

theorem CheckAuth_eq {Query Result : Type} (scramble : Bytes → Bytes → Except Error Bytes)
    (s : IprotoServer Query Result) (hash password scr : Bytes)
    (h : scramble s.salt password = .ok scr) :
    CheckAuth scramble s hash password = some (decide (hash = scr)) := by
  unfold CheckAuth
  simp only [h]
  by_cases hl : scr.length = hash.length
  · rw [if_neg (by simpa using hl), CheckAuth_loop_eq scr hash 0 (by omega)]
    simp
  · rw [if_pos hl]
    have : hash ≠ scr := fun e => hl (by rw [e])
    simp [this]

/-- C2: `CheckAuth(hash, password)` always returns (the index `scr[i]` is never out of
range); it returns true if and only if `scramble(salt, password)` succeeds with an output
of the same length as `hash` and the same byte at every index, that is, with `hash`
itself; it returns false when `scramble` fails, when the lengths differ, and for every
hash obtained from a correct proof by changing a single byte. -/
theorem CheckAuth_iff {Query Result : Type} (scramble : Bytes → Bytes → Except Error Bytes)
    (s : IprotoServer Query Result) (hash password : Bytes) :
    (CheckAuth scramble s hash password = some true ∨
        CheckAuth scramble s hash password = some false) ∧
      (CheckAuth scramble s hash password = some true ↔
        ∃ scr, scramble s.salt password = .ok scr ∧ scr.length = hash.length ∧
          ∀ i, i < hash.length → scr.get? i = hash.get? i) ∧
      (CheckAuth scramble s hash password = some true ↔
        scramble s.salt password = .ok hash) ∧
      (∀ e, scramble s.salt password = .error e →
        CheckAuth scramble s hash password = some false) ∧
      (∀ scr, scramble s.salt password = .ok scr → scr.length ≠ hash.length →
        CheckAuth scramble s hash password = some false) ∧
      (∀ scr i b, scramble s.salt password = .ok scr → i < scr.length → scr.get? i ≠ some b →
        CheckAuth scramble s (scr.set i b) password = some false) := by
  have hext : ∀ scr : Bytes, (scr.length = hash.length ∧
      ∀ i, i < hash.length → scr.get? i = hash.get? i) ↔ hash = scr := by
    intro scr
    constructor
    · rintro ⟨hl, hi⟩
      apply List.ext_get? 
      intro n
      by_cases hn : n < hash.length
      · exact (hi n hn).symm
      · rw [List.get?_eq_none.mpr (by omega), List.get?_eq_none.mpr (by omega)]
    · rintro rfl
      exact ⟨rfl, fun _ _ => rfl⟩
  cases hsc : scramble s.salt password with
  | error e =>
    have hc : CheckAuth scramble s hash password = some false := by
      unfold CheckAuth; simp only [hsc]
    refine ⟨Or.inr hc, ?_, ?_, fun _ _ => hc, ?_, ?_⟩
    · simp [hc]
    · simp [hc]
    · intro scr h; cases h
    · intro scr i b h; cases h
  | ok scr0 =>
    have hc := CheckAuth_eq scramble s hash password scr0 hsc
    refine ⟨?_, ?_, ?_, ?_, ?_, ?_⟩
    · rw [hc]; by_cases h : hash = scr0 <;> simp [h]
    · rw [hc]
      constructor
      · intro h
        have h' : hash = scr0 := by simpa using h
        exact ⟨scr0, rfl, (hext scr0).mpr h'⟩
      · rintro ⟨scr, he, hl, hi⟩
        have : scr = scr0 := by simpa using he.symm
        subst this
        simpa using (hext scr).mp ⟨hl, hi⟩
    · rw [hc]
      constructor
      · intro h
        have h' : hash = scr0 := by simpa using h
        rw [h']
      · intro h
        have : scr0 = hash := by simpa using h
        simp [this]
    · intro e h; cases h
    · intro scr he hl
      have : scr = scr0 := by simpa using he.symm
      subst this
      rw [hc]
      have : hash ≠ scr := fun e => hl (by rw [e])
      simp [this]
    · intro scr i b he hi hb
      have : scr = scr0 := by simpa using he.symm
      subst this
      rw [CheckAuth_eq scramble s (scr.set i b) password scr hsc]
      have : scr.set i b ≠ scr := by
        intro e
        apply hb
        have h1 : (scr.set i b).get? i = some b := by
          rw [List.get?_eq_getElem?, List.getElem?_set_self (by simpa using hi)]
        rw [e] at h1
        exact h1
      simp [this]

/-! ## Handshake failure, teardown -/

set_option maxRecDepth 100000 in
/-- C3 (the code at the failing input): with the 39-character identifier `longUuid`
the greeting is 129 bytes long, `Fprintf` reports 129 bytes written and a nil error, so
`greet` returns that nil error without flushing; `Accept` then does not close the
connection and starts the loops although the number of bytes written is not 128. -/
theorem Accept_starts_loops_on_wrong_count :
    fprintf okEnv (greeting longUuid zeroSalt) = (129, none) ∧
      (greet okEnv (NewIprotoServer longUuid toyHandler)).2.1 = none ∧
      (Accept okEnv (NewIprotoServer longUuid toyHandler) 7).2 =
        [Event.write (greeting longUuid zeroSalt), Event.loopStart] ∧
      Event.connClose 7 ∉ (Accept okEnv (NewIprotoServer longUuid toyHandler) 7).2 ∧
      Event.flush ∉ (Accept okEnv (NewIprotoServer longUuid toyHandler) 7).2 := by
  decide

set_option maxRecDepth 100000 in
/-- C7 (the code at the failing input): after an `Accept` on connection 7 whose
handshake fails, a `Close` raises the cancellation signal once and calls `Close` on
connection 7 a second time: `Accept` closed it directly, outside `closeOnce`. -/
theorem Close_after_failed_Accept_closes_twice :
    (runCalls (NewIprotoServer shortUuid toyHandler) [Call.accept failEnv 7, Call.close]).2 =
        [Event.connClose 7, Event.quitClose, Event.connClose 7] ∧
      ((runCalls (NewIprotoServer shortUuid toyHandler)
        [Call.accept failEnv 7, Call.close]).2.count (Event.connClose 7)) = 2 := by
  decide

/-- C8 (the code at the failing input): `Close` on a server that `NewIprotoServer` has
just made, before any `Accept`, panics: `s.quit` is still the nil channel. -/
theorem Close_before_Accept_panics :
    (NewIprotoServer shortUuid toyHandler).quit = none ∧
      (Close (NewIprotoServer shortUuid toyHandler)).2 = [Event.panic] ∧
      (runCalls (NewIprotoServer shortUuid toyHandler) [Call.close]).2 = [Event.panic] := by
  decide

/-! ### What holds of `Accept` and `Close` on every call sequence -/

theorem greet_events {Query Result : Type} (env : GreetEnv) (s : IprotoServer Query Result) :
    (greet env s).1.closeOnce = s.closeOnce ∧ (greet env s).1.quit = s.quit ∧
      (greet env s).1.conn = s.conn ∧
      ∀ e ∈ (greet env s).2.2, e = Event.flush ∨ ∃ g, e = Event.write g := by
  unfold greet
  cases env.randRead with
  | error e => simp
  | ok bytes =>
    dsimp only
    split_ifs <;> simp

theorem Accept_state {Query Result : Type} (env : GreetEnv) (s : IprotoServer Query Result)
    (conn : Conn) :
    (Accept env s conn).1.closeOnce = s.closeOnce ∧ (Accept env s conn).1.quit = some false ∧
      (Accept env s conn).1.conn = some conn ∧
      ∀ e ∈ (Accept env s conn).2, e ≠ Event.quitClose ∧ e ≠ Event.panic := by
  have hg := greet_events env { s with conn := some conn, quit := some false }
  unfold Accept
  dsimp only
  split
  · rename_i s1 err ev heq
    rw [heq] at hg
    refine ⟨hg.1, hg.2.1, hg.2.2.1, ?_⟩
    intro e he
    rcases List.mem_append.mp he with h | h
    · rcases hg.2.2.2 e h with h | ⟨g, h⟩ <;> subst h <;> simp
    · rw [List.mem_singleton.mp h]; simp
  · rename_i s1 ev heq
    rw [heq] at hg
    refine ⟨hg.1, hg.2.1, hg.2.2.1, ?_⟩
    intro e he
    rcases List.mem_append.mp he with h | h
    · rcases hg.2.2.2 e h with h | ⟨g, h⟩ <;> subst h <;> simp
    · rw [List.mem_singleton.mp h]; simp

theorem Close_state {Query Result : Type} (s : IprotoServer Query Result) :
    (Close s).1.closeOnce = true ∨ (Close s).1 = s := by
  unfold Close
  split_ifs
  · exact Or.inr rfl
  · left
    try dsimp only
    split
    · rfl
    · rfl
    · try dsimp only
      split <;> rfl

theorem Close_done {Query Result : Type} (s : IprotoServer Query Result)
    (h : s.closeOnce = true) : Close s = (s, []) := by
  unfold Close
  simp [h]

theorem Close_count_quit {Query Result : Type} (s : IprotoServer Query Result) :
    (Close s).2.count Event.quitClose ≤ 1 ∧ (Close s).1.closeOnce = true := by
  unfold Close
  split_ifs with h
  · exact ⟨by simp, h⟩
  · try dsimp only
    split
    · exact ⟨by simp, rfl⟩
    · exact ⟨by simp, rfl⟩
    · try dsimp only
      split
      · exact ⟨by simp [List.count_cons], rfl⟩
      · exact ⟨by simp [List.count_cons], rfl⟩

theorem Accept_count_quit {Query Result : Type} (env : GreetEnv)
    (s : IprotoServer Query Result) (conn : Conn) :
    (Accept env s conn).2.count Event.quitClose = 0 := by
  rw [List.count_eq_zero]
  intro h
  exact ((Accept_state env s conn).2.2.2 _ h).1 rfl

theorem runCalls_done_no_quit {Query Result : Type} (calls : List Call)
    (s : IprotoServer Query Result) (h : s.closeOnce = true) :
    (runCalls s calls).2.count Event.quitClose = 0 := by
  induction calls generalizing s with
  | nil => simp [runCalls]
  | cons c rest ih =>
    cases c with
    | accept env conn =>
      simp only [runCalls, List.count_append, Accept_count_quit, zero_add]
      exact ih _ ((Accept_state env s conn).1.trans h)
    | close =>
      simp only [runCalls, Close_done s h, List.nil_append]
      exact ih s h

theorem quit_raised_at_most_once {Query Result : Type} (calls : List Call)
    (s : IprotoServer Query Result) : (runCalls s calls).2.count Event.quitClose ≤ 1 := by
  induction calls generalizing s with
  | nil => simp [runCalls]
  | cons c rest ih =>
    cases c with
    | accept env conn =>
      simp only [runCalls, List.count_append, Accept_count_quit, zero_add]
      exact ih _
    | close =>
      have hc := Close_count_quit s
      have hr := runCalls_done_no_quit rest (Close s).1 hc.2
      simp only [runCalls, List.count_append, hr, add_zero]
      exact hc.1

/-- The states in which `Close` cannot panic: a channel and a connection are in place,
and a closed channel means that `closeOnce` is used up. -/
theorem Close_no_panic {Query Result : Type} (s : IprotoServer Query Result)
    (hq : s.quit ≠ none) (hc : s.conn ≠ none) (hd : s.quit = some true → s.closeOnce = true) :
    Event.panic ∉ (Close s).2 ∧ (Close s).1.quit ≠ none ∧ (Close s).1.conn ≠ none ∧
      ((Close s).1.quit = some true → (Close s).1.closeOnce = true) := by
  unfold Close
  split_ifs with h
  · exact ⟨by simp, hq, hc, hd⟩
  · try dsimp only
    split
    · rename_i h0; exact absurd h0 hq
    · rename_i h0; exact absurd (hd h0) h
    · try dsimp only
      split
      · rename_i h0; exact absurd h0 hc
      · rename_i c h0
        refine ⟨by simp, by simp, by simp [h0], fun _ => rfl⟩

theorem runCalls_no_panic {Query Result : Type} (calls : List Call)
    (s : IprotoServer Query Result)
    (hq : s.quit ≠ none) (hc : s.conn ≠ none) (hd : s.quit = some true → s.closeOnce = true) :
    Event.panic ∉ (runCalls s calls).2 := by
  induction calls generalizing s with
  | nil => simp [runCalls]
  | cons c rest ih =>
    cases c with
    | accept env conn =>
      have ha := Accept_state env s conn
      simp only [runCalls, List.mem_append, not_or]
      refine ⟨fun h => (ha.2.2.2 _ h).2 rfl, ih _ ?_ ?_ ?_⟩
      · rw [ha.2.1]; simp
      · rw [ha.2.2.1]; simp
      · rw [ha.2.1]; simp
    | close =>
      have hcl := Close_no_panic s hq hc hd
      simp only [runCalls, List.mem_append, not_or]
      exact ⟨hcl.1, ih _ hcl.2.1 hcl.2.2.1 hcl.2.2.2⟩

theorem no_panic_after_first_Accept {Query Result : Type} (uuid : Bytes)
    (handler : Query → Result) (env : GreetEnv) (conn : Conn) (calls : List Call) :
    Event.panic ∉ (runCalls (NewIprotoServer uuid handler) (Call.accept env conn :: calls)).2 := by
  have ha := Accept_state env (NewIprotoServer uuid handler) conn
  simp only [runCalls, List.mem_append, not_or]
  refine ⟨fun h => (ha.2.2.2 _ h).2 rfl, runCalls_no_panic calls _ ?_ ?_ ?_⟩
  · rw [ha.2.1]; simp
  · rw [ha.2.2.1]; simp
  · rw [ha.2.1]; simp

theorem Accept_loopStart_iff {Query Result : Type} (env : GreetEnv)
    (s : IprotoServer Query Result) (conn : Conn) :
    (Event.loopStart ∈ (Accept env s conn).2 ↔
        (greet env { s with conn := some conn, quit := some false }).2.1 = none) ∧
      (Event.connClose conn ∈ (Accept env s conn).2 ↔
        (greet env { s with conn := some conn, quit := some false }).2.1 ≠ none) := by
  have hg := greet_events env { s with conn := some conn, quit := some false }
  unfold Accept
  dsimp only
  split
  · rename_i s1 err ev heq
    rw [heq] at hg ⊢
    constructor
    · simp only [List.mem_append, List.mem_singleton, reduceCtorEq, or_false, iff_false]
      intro h
      rcases hg.2.2.2 _ h with h | ⟨g, h⟩ <;> cases h
    · simp
  · rename_i s1 ev heq
    rw [heq] at hg ⊢
    constructor
    · simp
    · simp only [List.mem_append, List.mem_singleton, reduceCtorEq, or_false, ne_eq,
        not_true_eq_false, iff_false]
      intro h
      rcases hg.2.2.2 _ h with h | ⟨g, h⟩ <;> cases h

theorem greet_nil_iff {Query Result : Type} (env : GreetEnv) (s : IprotoServer Query Result) :
    (greet env s).2.1 = none ↔
      ∃ salt, env.randRead = .ok salt ∧ (fprintf env (greeting s.uuid salt)).2 = none ∧
        ((fprintf env (greeting s.uuid salt)).1 ≠ greetingSize ∨ env.flush = none) := by
  unfold greet
  cases hr : env.randRead with
  | error e => simp
  | ok bytes =>
    try dsimp only
    rcases hf : fprintf env (greeting s.uuid bytes) with ⟨n, err⟩
    cases err with
    | some e => simp [hf]
    | none =>
      by_cases hn : n = greetingSize
      · simp [hf, hn]
      · simp [hf, hn]

/-! ## The loops and the tasks: what an action leaves alone -/

theorem run_cons {Query Result : Type} (codec : Codec Query Result) (tid : Tid)
    (sch : List Tid) (σ : ReadState Query Result) :
    run codec (tid :: sch) σ = run codec sch (step codec tid σ) := rfl

theorem run_append {Query Result : Type} (codec : Codec Query Result) (s1 s2 : List Tid)
    (σ : ReadState Query Result) :
    run codec (s1 ++ s2) σ = run codec s2 (run codec s1 σ) := by
  simp [run, List.foldl_append]

theorem readStep_tasks_get {Query Result : Type} (codec : Codec Query Result)
    (σ : ReadState Query Result) (i : Nat) (t : Task Query Result)
    (h : σ.tasks.get? i = some t) : (readStep codec σ).tasks.get? i = some t := by
  unfold readStep
  split
  · exact h
  · split_ifs
    · exact h
    · split <;> exact h
  · split
    · exact h
    · split
      · exact h
      · dsimp only
        have hi : i < σ.tasks.length := (List.get?_eq_some.mp h).1
        rw [List.get?_eq_getElem?, List.getElem?_append_left hi, ← List.get?_eq_getElem?]
        exact h

theorem readStep_frame {Query Result : Type} (codec : Codec Query Result)
    (σ : ReadState Query Result) :
    (readStep codec σ).wrunning = σ.wrunning ∧ (readStep codec σ).queue = σ.queue := by
  unfold readStep
  split
  · exact ⟨rfl, rfl⟩
  · split_ifs
    · exact ⟨rfl, rfl⟩
    · split <;> exact ⟨rfl, rfl⟩
  · split
    · exact ⟨rfl, rfl⟩
    · split <;> exact ⟨rfl, rfl⟩

theorem taskStep_tasks_get_ne {Query Result : Type} (codec : Codec Query Result)
    (σ : ReadState Query Result) (i j : Nat) (hij : i ≠ j) :
    (taskStep codec σ i).tasks.get? j = σ.tasks.get? j := by
  have hset : ∀ x : Task Query Result, (σ.tasks.set i x).get? j = σ.tasks.get? j := by
    intro x
    rw [List.get?_eq_getElem?, List.getElem?_set_ne hij, ← List.get?_eq_getElem?]
  unfold taskStep
  split
  · rfl
  · split
    · split_ifs
      · exact hset _
      · split <;> exact hset _
    · exact hset _
    · exact hset _
    · split_ifs
      · exact hset _
      · rfl
    · rfl
    · rfl

theorem taskStep_frame {Query Result : Type} (codec : Codec Query Result)
    (σ : ReadState Query Result) (j : Nat) :
    (taskStep codec σ j).wrunning = σ.wrunning ∧ (taskStep codec σ j).rpc = σ.rpc ∧
      (taskStep codec σ j).input = σ.input ∧
      (taskStep codec σ j).tasks.length = σ.tasks.length ∧
      (taskStep codec σ j).closeCalls = σ.closeCalls ∧
      (taskStep codec σ j).srv = σ.srv ∧
      (outputCap ≤ σ.queue.length → (taskStep codec σ j).queue = σ.queue) := by
  unfold taskStep
  split
  · exact ⟨rfl, rfl, rfl, rfl, rfl, rfl, fun _ => rfl⟩
  · split
    · split_ifs
      · exact ⟨rfl, rfl, rfl, List.length_set _ _ _, rfl, rfl, fun _ => rfl⟩
      · split <;> exact ⟨rfl, rfl, rfl, List.length_set _ _ _, rfl, rfl, fun _ => rfl⟩
    · exact ⟨rfl, rfl, rfl, List.length_set _ _ _, rfl, rfl, fun _ => rfl⟩
    · exact ⟨rfl, rfl, rfl, List.length_set _ _ _, rfl, rfl, fun _ => rfl⟩
    · split_ifs with hroom
      · exact ⟨rfl, rfl, rfl, List.length_set _ _ _, rfl, rfl, fun h => absurd hroom (by omega)⟩
      · exact ⟨rfl, rfl, rfl, rfl, rfl, rfl, fun _ => rfl⟩
    · exact ⟨rfl, rfl, rfl, rfl, rfl, rfl, fun _ => rfl⟩
    · exact ⟨rfl, rfl, rfl, rfl, rfl, rfl, fun _ => rfl⟩

theorem writeStep_frame {Query Result : Type} (c : WriterChoice)
    (σ : ReadState Query Result) :
    (writeStep c σ).tasks = σ.tasks ∧ (writeStep c σ).rpc = σ.rpc ∧
      (writeStep c σ).input = σ.input ∧ (writeStep c σ).closeCalls = σ.closeCalls ∧
      (σ.wrunning = false → writeStep c σ = σ) := by
  unfold writeStep
  by_cases hw : σ.wrunning = false
  · rw [if_pos hw]
    exact ⟨rfl, rfl, rfl, rfl, fun _ => rfl⟩
  · rw [if_neg hw]
    cases c with
    | recv ok =>
      dsimp only
      split
      · exact ⟨rfl, rfl, rfl, rfl, fun _ => rfl⟩
      · split_ifs <;> exact ⟨rfl, rfl, rfl, rfl, fun h => absurd h hw⟩
    | quit =>
      dsimp only
      split_ifs
      · exact ⟨rfl, rfl, rfl, rfl, fun h => absurd h hw⟩
      · exact ⟨rfl, rfl, rfl, rfl, fun _ => rfl⟩
    | flushFail =>
      dsimp only
      split_ifs
      · exact ⟨rfl, rfl, rfl, rfl, fun h => absurd h hw⟩
      · exact ⟨rfl, rfl, rfl, rfl, fun _ => rfl⟩

theorem step_tasks_get {Query Result : Type} (codec : Codec Query Result) (tid : Tid)
    (σ : ReadState Query Result) (i : Nat) (t : Task Query Result)
    (h : σ.tasks.get? i = some t) (hne : tid ≠ Tid.task i) :
    (step codec tid σ).tasks.get? i = some t := by
  cases tid with
  | reader => exact readStep_tasks_get codec σ i t h
  | task j =>
    show (taskStep codec σ j).tasks.get? i = some t
    rw [taskStep_tasks_get_ne codec σ j i (fun e => hne (by rw [e]))]
    exact h
  | writer c =>
    show (writeStep c σ).tasks.get? i = some t
    rw [(writeStep_frame c σ).1]
    exact h
  | closer => exact h
  | tear v => exact h

/-! ## Single actions of a task -/

theorem taskStep_ping_start {Query Result : Type} (codec : Codec Query Result)
    (σ : ReadState Query Result) (i : Nat) (p : Packet Query)
    (h : σ.tasks.get? i = some (taskStart p)) (hcode : p.code % 256 = codec.PingRequest) :
    (taskStep codec σ i).tasks.get? i = some (pingSending codec p) ∧
      (taskStep codec σ i).queue = σ.queue ∧ (taskStep codec σ i).output = σ.output ∧
      (taskStep codec σ i).wrunning = σ.wrunning := by
  have hi : i < σ.tasks.length := (List.get?_eq_some.mp h).1
  unfold taskStep
  simp only [h, taskStart, hcode, if_true, and_true]
  rw [List.get?_eq_getElem?, List.getElem?_set_self hi]
  rfl

theorem taskStep_send {Query Result : Type} (codec : Codec Query Result)
    (σ : ReadState Query Result) (i : Nat) (t : Task Query Result) (v : Bytes)
    (h : σ.tasks.get? i = some t) (hpc : t.pc = .sending v)
    (hroom : σ.queue.length < outputCap) :
    (taskStep codec σ i).tasks.get? i = some { t with pc := .done, sent := t.sent ++ [v] } ∧
      (taskStep codec σ i).queue = σ.queue ++ [v] ∧
      (taskStep codec σ i).output = σ.output ++ [v] ∧
      (taskStep codec σ i).wrunning = σ.wrunning := by
  have hi : i < σ.tasks.length := (List.get?_eq_some.mp h).1
  unfold taskStep
  simp only [h, hpc, hroom, if_true, and_true]
  rw [List.get?_eq_getElem?, List.getElem?_set_self hi]

theorem taskStep_wait {Query Result : Type} (codec : Codec Query Result)
    (σ : ReadState Query Result) (i : Nat) (t : Task Query Result) (v : Bytes)
    (h : σ.tasks.get? i = some t) (hpc : t.pc = .sending v)
    (hfull : outputCap ≤ σ.queue.length) : taskStep codec σ i = σ := by
  unfold taskStep
  simp only [h, hpc, if_neg (Nat.not_lt.mpr hfull)]

theorem taskStep_done {Query Result : Type} (codec : Codec Query Result)
    (σ : ReadState Query Result) (i : Nat) (t : Task Query Result)
    (h : σ.tasks.get? i = some t) (hpc : t.pc = .done) : taskStep codec σ i = σ := by
  unfold taskStep
  simp only [h, hpc]

theorem taskStep_call {Query Result : Type} (codec : Codec Query Result)
    (σ : ReadState Query Result) (i : Nat) (t : Task Query Result) (q : Query)
    (h : σ.tasks.get? i = some t) (hpc : t.pc = .start)
    (hcode : t.packet.code % 256 ≠ codec.PingRequest) (hreq : t.packet.request = some q) :
    (taskStep codec σ i).tasks.get? i =
        some { t with pc := .called (σ.srv.handler q), calls := t.calls ++ [q] } ∧
      (taskStep codec σ i).srv = σ.srv ∧ (taskStep codec σ i).queue = σ.queue := by
  have hi : i < σ.tasks.length := (List.get?_eq_some.mp h).1
  unfold taskStep
  simp only [h, hpc, hcode, if_false, hreq, and_true]
  rw [List.get?_eq_getElem?, List.getElem?_set_self hi]

theorem taskStep_pack {Query Result : Type} (codec : Codec Query Result)
    (σ : ReadState Query Result) (i : Nat) (t : Task Query Result) (res : Result)
    (h : σ.tasks.get? i = some t) (hpc : t.pc = .called res) :
    (taskStep codec σ i).tasks.get? i = some { t with pc := .packed } ∧
      (taskStep codec σ i).body = (codec.pack res t.packet.requestID).1 ∧
      (taskStep codec σ i).queue = σ.queue := by
  have hi : i < σ.tasks.length := (List.get?_eq_some.mp h).1
  unfold taskStep
  simp only [h, hpc, and_true]
  rw [List.get?_eq_getElem?, List.getElem?_set_self hi]

theorem taskStep_eval {Query Result : Type} (codec : Codec Query Result)
    (σ : ReadState Query Result) (i : Nat) (t : Task Query Result)
    (h : σ.tasks.get? i = some t) (hpc : t.pc = .packed) :
    (taskStep codec σ i).tasks.get? i = some { t with pc := .sending σ.body } ∧
      (taskStep codec σ i).queue = σ.queue := by
  have hi : i < σ.tasks.length := (List.get?_eq_some.mp h).1
  unfold taskStep
  simp only [h, hpc, and_true]
  rw [List.get?_eq_getElem?, List.getElem?_set_self hi]

theorem task_alone_sends_packed_result {Query Result : Type} (codec : Codec Query Result)
    (σ : ReadState Query Result) (i : Nat) (p : Packet Query) (q : Query)
    (h : σ.tasks.get? i = some (taskStart p))
    (hcode : p.code % 256 ≠ codec.PingRequest) (hreq : p.request = some q)
    (hroom : σ.queue.length < outputCap) :
    (run codec [Tid.task i, Tid.task i, Tid.task i, Tid.task i] σ).tasks.get? i =
      some { packet := p, pc := .done, calls := [q],
             sent := [(codec.pack (σ.srv.handler q) p.requestID).1] } := by
  have h1 := taskStep_call codec σ i _ q h rfl hcode hreq
  have h2 := taskStep_pack codec (taskStep codec σ i) i _ _ h1.1 rfl
  have h3 := taskStep_eval codec (taskStep codec (taskStep codec σ i) i) i _ h2.1 rfl
  have hq : (taskStep codec (taskStep codec (taskStep codec σ i) i) i).queue.length
      < outputCap := by rw [h3.2, h2.2.2, h1.2.2]; exact hroom
  have h4 := taskStep_send codec _ i _ _ h3.1 rfl hq
  show (taskStep codec (taskStep codec (taskStep codec (taskStep codec σ i) i) i) i).tasks.get? i
    = _
  rw [h4.1, h2.2.1]
  rfl

/-! ## Ping tasks -/

theorem readStep_dispatch {Query Result : Type} (codec : Codec Query Result)
    (σ : ReadState Query Result) (p : Packet Query) (q : Query) (hpc : σ.rpc = .decode)
    (hdec : codec.decodePacket σ.body = .ok p) (hreq : p.request = some q) :
    (readStep codec σ).tasks = σ.tasks ++ [taskStart p] := by
  unfold readStep
  simp only [hpc, hdec, hreq]
  rfl

theorem step_ping_stage {Query Result : Type} (codec : Codec Query Result) (tid : Tid)
    (σ : ReadState Query Result) (i : Nat) (p : Packet Query) (t : Task Query Result)
    (hcode : p.code % 256 = codec.PingRequest) (h : σ.tasks.get? i = some t)
    (ht : t = taskStart p ∨ t = pingSending codec p ∨ t = pingDone codec p) :
    ∃ t1, (step codec tid σ).tasks.get? i = some t1 ∧
      (t1 = taskStart p ∨ t1 = pingSending codec p ∨ t1 = pingDone codec p) := by
  by_cases htid : tid = Tid.task i
  · subst htid
    show ∃ t1, (taskStep codec σ i).tasks.get? i = some t1 ∧ _
    rcases ht with ht | ht | ht
    · subst ht
      exact ⟨_, (taskStep_ping_start codec σ i p h hcode).1, Or.inr (Or.inl rfl)⟩
    · subst ht
      by_cases hroom : σ.queue.length < outputCap
      · exact ⟨_, (taskStep_send codec σ i _ _ h rfl hroom).1, Or.inr (Or.inr rfl)⟩
      · rw [taskStep_wait codec σ i _ _ h rfl (Nat.not_lt.mp hroom)]
        exact ⟨_, h, Or.inr (Or.inl rfl)⟩
    · subst ht
      rw [taskStep_done codec σ i _ h rfl]
      exact ⟨_, h, Or.inr (Or.inr rfl)⟩
  · exact ⟨t, step_tasks_get codec tid σ i t h htid, ht⟩

theorem run_ping_stage {Query Result : Type} (codec : Codec Query Result) (sch : List Tid)
    (σ : ReadState Query Result) (i : Nat) (p : Packet Query) (t : Task Query Result)
    (hcode : p.code % 256 = codec.PingRequest) (h : σ.tasks.get? i = some t)
    (ht : t = taskStart p ∨ t = pingSending codec p ∨ t = pingDone codec p) :
    ∃ t1, (run codec sch σ).tasks.get? i = some t1 ∧
      (t1 = taskStart p ∨ t1 = pingSending codec p ∨ t1 = pingDone codec p) := by
  induction sch generalizing σ t with
  | nil => exact ⟨t, h, ht⟩
  | cons tid rest ih =>
    rw [run_cons]
    obtain ⟨t1, h1, ht1⟩ := step_ping_stage codec tid σ i p t hcode h ht
    exact ih _ t1 h1 ht1

/-- C5 (amended): when `read` decodes a packet that carries a request and whose
operation code is `PingRequest` (a constant that fits a byte), it dispatches one task
for it.  In every interleaving that task is in one of three stages: not yet run; canned
reply `packIprotoOk(packet.requestID)` evaluated and not yet sent; or returned with
exactly that one reply sent.  In none of them has it called the handler.  Its first
action evaluates the reply; its send takes place when the queue holds fewer than 1024
values and appends exactly the reply; while the queue is full the send waits. -/
theorem ping_task_at_most_one_reply {Query Result : Type} (codec : Codec Query Result)
    (σ : ReadState Query Result) (p : Packet Query) (q : Query)
    (hP : codec.PingRequest < 256) (hpc : σ.rpc = .decode)
    (hdec : codec.decodePacket σ.body = .ok p) (hreq : p.request = some q)
    (hcode : p.code = codec.PingRequest) :
    (step codec Tid.reader σ).tasks = σ.tasks ++ [taskStart p] ∧
      (∀ sch : List Tid, ∃ t,
        (run codec sch (step codec Tid.reader σ)).tasks.get? σ.tasks.length = some t ∧
          (t = taskStart p ∨ t = pingSending codec p ∨ t = pingDone codec p)) ∧
      (∀ (i : Nat) (τ : ReadState Query Result), τ.tasks.get? i = some (taskStart p) →
        (step codec (Tid.task i) τ).tasks.get? i = some (pingSending codec p) ∧
          (step codec (Tid.task i) τ).queue = τ.queue) ∧
      (∀ (i : Nat) (τ : ReadState Query Result), τ.tasks.get? i = some (pingSending codec p) →
        τ.queue.length < outputCap →
        (step codec (Tid.task i) τ).tasks.get? i = some (pingDone codec p) ∧
          (step codec (Tid.task i) τ).queue = τ.queue ++ [codec.packIprotoOk p.requestID]) ∧
      (∀ (i : Nat) (τ : ReadState Query Result), τ.tasks.get? i = some (pingSending codec p) →
        outputCap ≤ τ.queue.length → step codec (Tid.task i) τ = τ) := by
  have hc : p.code % 256 = codec.PingRequest := by
    rw [hcode]; exact Nat.mod_eq_of_lt hP
  have hd : (step codec Tid.reader σ).tasks = σ.tasks ++ [taskStart p] :=
    readStep_dispatch codec σ p q hpc hdec hreq
  refine ⟨hd, ?_, ?_, ?_, ?_⟩
  · intro sch
    apply run_ping_stage codec sch _ _ p (taskStart p) hc _ (Or.inl rfl)
    rw [hd, List.get?_eq_getElem?]
    simp
  · intro i τ h
    exact ⟨(taskStep_ping_start codec τ i p h hc).1, (taskStep_ping_start codec τ i p h hc).2.1⟩
  · intro i τ h hroom
    exact ⟨(taskStep_send codec τ i _ _ h rfl hroom).1, (taskStep_send codec τ i _ _ h rfl hroom).2.1⟩
  · intro i τ h hfull
    exact taskStep_wait codec τ i _ _ h rfl hfull

set_option maxRecDepth 100000 in
/-- C5 (amended) at the toy codec: `read` has received `pingFrame` and decodes it to
`pingPacket`. -/
theorem ping_task_at_most_one_reply_witness :
    (step toyCodec Tid.reader pingReadState).tasks = pingReadState.tasks ++ [taskStart pingPacket] ∧
      (∀ sch : List Tid, ∃ t,
        (run toyCodec sch (step toyCodec Tid.reader pingReadState)).tasks.get?
            pingReadState.tasks.length = some t ∧
          (t = taskStart pingPacket ∨ t = pingSending toyCodec pingPacket ∨
            t = pingDone toyCodec pingPacket)) ∧
      (∀ (i : Nat) (τ : ReadState Nat Nat), τ.tasks.get? i = some (taskStart pingPacket) →
        (step toyCodec (Tid.task i) τ).tasks.get? i = some (pingSending toyCodec pingPacket) ∧
          (step toyCodec (Tid.task i) τ).queue = τ.queue) ∧
      (∀ (i : Nat) (τ : ReadState Nat Nat),
        τ.tasks.get? i = some (pingSending toyCodec pingPacket) →
        τ.queue.length < outputCap →
        (step toyCodec (Tid.task i) τ).tasks.get? i = some (pingDone toyCodec pingPacket) ∧
          (step toyCodec (Tid.task i) τ).queue
            = τ.queue ++ [toyCodec.packIprotoOk pingPacket.requestID]) ∧
      (∀ (i : Nat) (τ : ReadState Nat Nat),
        τ.tasks.get? i = some (pingSending toyCodec pingPacket) →
        outputCap ≤ τ.queue.length → step toyCodec (Tid.task i) τ = τ) :=
  ping_task_at_most_one_reply toyCodec pingReadState pingPacket 6 (by decide) rfl rfl rfl rfl

/-! ## A send that waits for ever -/

theorem step_blocked {Query Result : Type} (codec : Codec Query Result) (tid : Tid)
    (σ : ReadState Query Result) (hw : σ.wrunning = false)
    (hfull : outputCap ≤ σ.queue.length) :
    (step codec tid σ).wrunning = false ∧ (step codec tid σ).queue = σ.queue := by
  cases tid with
  | reader =>
    have := readStep_frame codec σ
    exact ⟨this.1.trans hw, this.2⟩
  | task j =>
    have := taskStep_frame codec σ j
    exact ⟨this.1.trans hw, this.2.2.2.2.2.2 hfull⟩
  | writer c =>
    show (writeStep c σ).wrunning = false ∧ (writeStep c σ).queue = σ.queue
    rw [(writeStep_frame c σ).2.2.2.2 hw]
    exact ⟨hw, rfl⟩
  | closer => exact ⟨hw, rfl⟩
  | tear v => exact ⟨hw, rfl⟩

theorem run_blocked_task {Query Result : Type} (codec : Codec Query Result) (sch : List Tid)
    (σ : ReadState Query Result) (i : Nat) (t : Task Query Result) (v : Bytes)
    (hw : σ.wrunning = false) (hfull : outputCap ≤ σ.queue.length)
    (h : σ.tasks.get? i = some t) (hpc : t.pc = .sending v) :
    (run codec sch σ).tasks.get? i = some t := by
  induction sch generalizing σ with
  | nil => exact h
  | cons tid rest ih =>
    rw [run_cons]
    have hb := step_blocked codec tid σ hw hfull
    apply ih _ hb.1 (by rw [hb.2]; exact hfull)
    by_cases htid : tid = Tid.task i
    · subst htid
      show (taskStep codec σ i).tasks.get? i = some t
      rw [taskStep_wait codec σ i t v h hpc hfull]
      exact h
    · exact step_tasks_get codec tid σ i t h htid

theorem readStep_error {Query Result : Type} (codec : Codec Query Result)
    (σ : ReadState Query Result) (b : Bytes) (e : Error) (rest : List (Bytes × Option Error))
    (hpc : σ.rpc = .select) (hquit : σ.srv.quit ≠ some true)
    (hin : σ.input = (b, some e) :: rest) :
    readStep codec σ = readExit { σ with input := rest, body := b } := by
  unfold readStep
  simp only [hpc, hquit, if_false, hin]

theorem writeStep_quit {Query Result : Type} (σ : ReadState Query Result)
    (hw : σ.wrunning = true) (hquit : σ.srv.quit = some true) :
    writeStep WriterChoice.quit σ = writeExit σ := by
  unfold writeStep
  simp only [hw, Bool.true_eq_false, if_false, hquit, if_true]

theorem run_read_frames {Query Result : Type} (codec : Codec Query Result) (f : Bytes)
    (p : Packet Query) (q : Query) (hdec : codec.decodePacket f = .ok p)
    (hreq : p.request = some q) (n : Nat) (σ : ReadState Query Result)
    (rest : List (Bytes × Option Error)) (hpc : σ.rpc = .select)
    (hquit : σ.srv.quit ≠ some true) (hin : σ.input = List.replicate n (f, none) ++ rest) :
    run codec (List.replicate (2 * n) Tid.reader) σ =
      { σ with
        input := rest
        body := if n = 0 then σ.body else f
        tasks := σ.tasks ++ List.replicate n (taskStart p) } := by
  induction n generalizing σ with
  | zero =>
    cases σ
    simp only [List.replicate_zero, List.nil_append] at hin
    simp [run, hin]
  | succ n ih =>
    have h2 : 2 * (n + 1) = (2 * n + 1) + 1 := by omega
    rw [h2, List.replicate_succ, List.replicate_succ, run_cons, run_cons]
    have hin1 : σ.input = (f, none) :: (List.replicate n (f, none) ++ rest) := by
      rw [hin, List.replicate_succ, List.cons_append]
    have s1 : step codec Tid.reader σ =
        { σ with input := List.replicate n (f, none) ++ rest, body := f, rpc := .decode } := by
      show readStep codec σ = _
      unfold readStep
      simp only [hpc, hquit, if_false, hin1]
    rw [s1]
    have s2 : step codec Tid.reader
        { σ with input := List.replicate n (f, none) ++ rest, body := f, rpc := .decode } =
        { σ with input := List.replicate n (f, none) ++ rest, body := f, rpc := .select,
                 tasks := σ.tasks ++ [taskStart p] } := by
      simp only [step, readStep, hdec, hreq]
      rfl
    have key := ih { σ with input := List.replicate n (f, none) ++ rest, body := f, rpc := .select,
                            tasks := σ.tasks ++ [taskStart p] } rfl hquit rfl
    rw [s2, key]
    cases σ
    simp only at hpc
    subst hpc
    simp [List.replicate_succ, List.append_assoc]

theorem run_fill {Query Result : Type} (codec : Codec Query Result) (p : Packet Query)
    (hcode : p.code % 256 = codec.PingRequest) (k : Nat) (σ : ReadState Query Result)
    (hroom : σ.queue.length + k ≤ outputCap)
    (ht : ∀ j, j < k → σ.tasks.get? j = some (taskStart p)) :
    (run codec ((List.range k).flatMap (fun i => [Tid.task i, Tid.task i])) σ).queue.length
        = σ.queue.length + k ∧
      (run codec ((List.range k).flatMap (fun i => [Tid.task i, Tid.task i])) σ).wrunning
        = σ.wrunning ∧
      ∀ j, k ≤ j →
        (run codec ((List.range k).flatMap (fun i => [Tid.task i, Tid.task i])) σ).tasks.get? j
          = σ.tasks.get? j := by
  induction k with
  | zero => exact ⟨rfl, rfl, fun _ _ => rfl⟩
  | succ k ih =>
    obtain ⟨hq, hw, hk⟩ := ih (by omega) (fun j hj => ht j (by omega))
    rw [List.range_succ, List.flatMap_append, run_append, List.flatMap_singleton]
    generalize run codec ((List.range k).flatMap (fun i => [Tid.task i, Tid.task i])) σ = σ1
      at hq hw hk
    have hk0 : σ1.tasks.get? k = some (taskStart p) := by
      rw [hk k (Nat.le_refl k)]; exact ht k (by omega)
    have a1 := taskStep_ping_start codec σ1 k p hk0 hcode
    have a2 := taskStep_send codec (taskStep codec σ1 k) k _ _ a1.1 rfl
      (by rw [a1.2.1, hq]; omega)
    show (taskStep codec (taskStep codec σ1 k) k).queue.length = _ ∧
      (taskStep codec (taskStep codec σ1 k) k).wrunning = _ ∧
      ∀ j, k + 1 ≤ j → (taskStep codec (taskStep codec σ1 k) k).tasks.get? j = _
    refine ⟨?_, ?_, ?_⟩
    · rw [a2.2.1, List.length_append, a1.2.1, hq]
      simp only [List.length_singleton]
      omega
    · rw [a2.2.2.2, a1.2.2.2, hw]
    · intro j hj
      rw [taskStep_tasks_get_ne codec _ k j (by omega),
        taskStep_tasks_get_ne codec _ k j (by omega)]
      exact hk j (by omega)

theorem run_singleton {Query Result : Type} (codec : Codec Query Result) (tid : Tid)
    (σ : ReadState Query Result) : run codec [tid] σ = step codec tid σ := rfl

theorem step_task {Query Result : Type} (codec : Codec Query Result) (i : Nat)
    (σ : ReadState Query Result) : step codec (Tid.task i) σ = taskStep codec σ i := rfl

theorem run_eof_quit {Query Result : Type} (codec : Codec Query Result)
    (σ : ReadState Query Result) (b : Bytes) (e : Error) (rest : List (Bytes × Option Error))
    (hpc : σ.rpc = .select) (hquit : σ.srv.quit ≠ some true)
    (hclose : (Close σ.srv).1.quit = some true) (hin : σ.input = (b, some e) :: rest)
    (hw : σ.wrunning = true) :
    (run codec [Tid.reader, Tid.writer WriterChoice.quit] σ).tasks = σ.tasks ∧
      (run codec [Tid.reader, Tid.writer WriterChoice.quit] σ).queue = σ.queue ∧
      (run codec [Tid.reader, Tid.writer WriterChoice.quit] σ).wrunning = false ∧
      (run codec [Tid.reader, Tid.writer WriterChoice.quit] σ).rpc = .exited := by
  have h1 : run codec [Tid.reader, Tid.writer WriterChoice.quit] σ
      = writeStep WriterChoice.quit (readStep codec σ) := rfl
  rw [h1, readStep_error codec σ b e rest hpc hquit hin,
    writeStep_quit (readExit { σ with input := rest, body := b }) hw hclose]
  exact ⟨rfl, rfl, rfl, rfl⟩

set_option maxRecDepth 100000 in
theorem flood_read :
    ∃ σA : ReadState Nat Nat,
      run toyCodec (List.replicate (2 * 1025) Tid.reader) (readInit toyServer floodInput) = σA ∧
        σA.rpc = .select ∧ σA.srv = toyServer ∧ σA.input = [([], some "EOF")] ∧
        σA.tasks = List.replicate 1025 (taskStart pingPacket) ∧ σA.queue = [] ∧
        σA.wrunning = true :=
  ⟨_, run_read_frames toyCodec pingFrame pingPacket 6 rfl rfl 1025
      (readInit toyServer floodInput) [([], some "EOF")] rfl (by decide) rfl,
    rfl, rfl, rfl, List.nil_append _, rfl, rfl⟩

set_option maxRecDepth 100000 in
theorem flood_state :
    (run toyCodec floodSchedule (readInit toyServer floodInput)).tasks.get? 1024
        = some (pingSending toyCodec pingPacket) ∧
      (run toyCodec floodSchedule (readInit toyServer floodInput)).wrunning = false ∧
      outputCap ≤ (run toyCodec floodSchedule (readInit toyServer floodInput)).queue.length := by
  have hq : toyServer.quit ≠ some true := by decide
  have hclose : (Close toyServer).1.quit = some true := by decide
  obtain ⟨σA, hA, f1, f2, f3, f4, f5, f6⟩ := flood_read
  unfold floodSchedule
  rw [run_append, run_append, run_append, hA, run_singleton, step_task]
  have hB := run_eof_quit toyCodec σA [] "EOF" [] f1 (by rw [f2]; exact hq)
    (by rw [f2]; exact hclose) f3 f6
  have hget : ∀ j, j < 1025 →
      (run toyCodec [Tid.reader, Tid.writer WriterChoice.quit] σA).tasks.get? j
        = some (taskStart pingPacket) := by
    intro j hj
    rw [hB.1, f4, List.get?_eq_getElem?, List.getElem?_replicate_of_lt hj]
  have hfill := run_fill toyCodec pingPacket (by decide) 1024
    (run toyCodec [Tid.reader, Tid.writer WriterChoice.quit] σA)
    (by rw [hB.2.1, f5]; decide) (fun j hj => hget j (by omega))
  have hD4 := (hfill.2.2 1024 (Nat.le_refl _)).trans (hget 1024 (by omega))
  have hE := taskStep_ping_start toyCodec _ 1024 pingPacket hD4 (by decide)
  refine ⟨hE.1, ?_, ?_⟩
  · rw [hE.2.2.2, hfill.2.1, hB.2.2.1]
  · rw [hE.2.1, hfill.1, hB.2.1, f5]
    decide

/-- C5 (counterexample): a client sends 1025 pings and closes its side.  `read` decodes
the 1025 frames and dispatches 1025 tasks, meets the end of file and calls `Close`;
`write` takes the branch `case <-s.quit` and returns; tasks 0 to 1023 fill the 1024-place
queue.  Task 1024, dispatched for a decoded packet that carries a request and has the
code `PingRequest`, then waits at its send in every continuation: it never enqueues a
response. -/
theorem ping_task_blocked_counterexample :
    toyCodec.decodePacket pingFrame = .ok pingPacket ∧
      pingPacket.request = some 6 ∧ pingPacket.code = toyCodec.PingRequest ∧
      (run toyCodec floodSchedule (readInit toyServer floodInput)).tasks.get? 1024
        = some (pingSending toyCodec pingPacket) ∧
      (pingSending toyCodec pingPacket).sent = [] ∧
      (∀ sch : List Tid,
        (run toyCodec sch
            (run toyCodec floodSchedule (readInit toyServer floodInput))).tasks.get? 1024
          = some (pingSending toyCodec pingPacket)) :=
  ⟨rfl, rfl, rfl, flood_state.1, rfl, fun sch =>
    run_blocked_task toyCodec sch _ 1024 _ _ flood_state.2.1 flood_state.2.2 flood_state.1 rfl⟩

/-! ## The shared variable `body` -/

set_option maxRecDepth 100000 in
/-- C6 (the code at the failing input): two request frames arrive, `[1, 5]` (operation
code 1, correlation identifier 5) and `[64, 6]`.  Task 0 calls the handler once with
query 5 and assigns the packed result to `body`; `read` then stores the second frame in
the same variable `body`; task 0 then sends `body`: the response it enqueues is the raw
second frame `[64, 6]`, not the packed result `[0, 5, 105]`. -/
theorem task_sends_overwritten_body :
    (toyCodec.pack (toyHandler 5) 5).1 = [0, 5, 105] ∧
      ((run toyCodec
          [Tid.reader, Tid.reader, Tid.task 0, Tid.task 0, Tid.reader, Tid.task 0, Tid.task 0,
            Tid.reader]
          (readInit toyServer [([1, 5], none), ([64, 6], none)])).tasks.map
        (fun t => (t.packet.requestID, t.calls, t.sent))) = [(5, [5], [[64, 6]]), (6, [], [])] ∧
      (run toyCodec
          [Tid.reader, Tid.reader, Tid.task 0, Tid.task 0, Tid.reader, Tid.task 0, Tid.task 0,
            Tid.reader]
          (readInit toyServer [([1, 5], none), ([64, 6], none)])).output = [[64, 6]] := by
  decide

theorem step_exited {Query Result : Type} (codec : Codec Query Result) (tid : Tid)
    (σ : ReadState Query Result) (h : σ.rpc = .exited) :
    (step codec tid σ).rpc = .exited ∧ (step codec tid σ).input = σ.input ∧
      (step codec tid σ).tasks.length = σ.tasks.length ∧
      (step codec tid σ).closeCalls = σ.closeCalls := by
  cases tid with
  | reader =>
    have : step codec Tid.reader σ = σ := by
      show readStep codec σ = σ
      unfold readStep; simp only [h]
    rw [this]
    exact ⟨h, rfl, rfl, rfl⟩
  | task j =>
    have := taskStep_frame codec σ j
    exact ⟨this.2.1.trans h, this.2.2.1, this.2.2.2.1, this.2.2.2.2.1⟩
  | writer c =>
    have := writeStep_frame c σ
    exact ⟨this.2.1.trans h, this.2.2.1, by show (writeStep c σ).tasks.length = _; rw [this.1],
      this.2.2.2.1⟩
  | closer => exact ⟨h, rfl, rfl, rfl⟩
  | tear v => exact ⟨h, rfl, rfl, rfl⟩

theorem run_exited {Query Result : Type} (codec : Codec Query Result) (sch : List Tid)
    (σ : ReadState Query Result) (h : σ.rpc = .exited) :
    (run codec sch σ).rpc = .exited ∧ (run codec sch σ).input = σ.input ∧
      (run codec sch σ).tasks.length = σ.tasks.length ∧
      (run codec sch σ).closeCalls = σ.closeCalls := by
  induction sch generalizing σ with
  | nil => exact ⟨h, rfl, rfl, rfl⟩
  | cons tid rest ih =>
    rw [run_cons]
    have hs := step_exited codec tid σ h
    have hr := ih (step codec tid σ) hs.1
    exact ⟨hr.1, hr.2.1.trans hs.2.1, hr.2.2.1.trans hs.2.2.1, hr.2.2.2.trans hs.2.2.2⟩

theorem read_stops_on_transport_error {Query Result : Type} (codec : Codec Query Result)
    (σ : ReadState Query Result) (b : Bytes) (e : Error) (rest : List (Bytes × Option Error))
    (hpc : σ.rpc = .select) (hquit : σ.srv.quit ≠ some true)
    (hin : σ.input = (b, some e) :: rest) :
    (step codec Tid.reader σ).tasks = σ.tasks ∧
      (step codec Tid.reader σ).closeCalls = σ.closeCalls + 1 ∧
      (step codec Tid.reader σ).srv = (Close σ.srv).1 ∧
      ∀ sch : List Tid,
        (run codec sch (step codec Tid.reader σ)).rpc = .exited ∧
          (run codec sch (step codec Tid.reader σ)).input = rest ∧
          (run codec sch (step codec Tid.reader σ)).tasks.length = σ.tasks.length ∧
          (run codec sch (step codec Tid.reader σ)).closeCalls = σ.closeCalls + 1 := by
  have hs : step codec Tid.reader σ = readExit { σ with input := rest, body := b } :=
    readStep_error codec σ b e rest hpc hquit hin
  rw [hs]
  exact ⟨rfl, rfl, rfl, fun sch => run_exited codec sch _ rfl⟩

theorem read_stops_on_decode_error {Query Result : Type} (codec : Codec Query Result)
    (σ : ReadState Query Result) (e : Error) (hpc : σ.rpc = .decode)
    (hdec : codec.decodePacket σ.body = .error e) :
    (step codec Tid.reader σ).tasks = σ.tasks ∧
      (step codec Tid.reader σ).closeCalls = σ.closeCalls + 1 ∧
      (step codec Tid.reader σ).srv = (Close σ.srv).1 ∧
      ∀ sch : List Tid,
        (run codec sch (step codec Tid.reader σ)).rpc = .exited ∧
          (run codec sch (step codec Tid.reader σ)).input = σ.input ∧
          (run codec sch (step codec Tid.reader σ)).tasks.length = σ.tasks.length ∧
          (run codec sch (step codec Tid.reader σ)).closeCalls = σ.closeCalls + 1 := by
  have hs : step codec Tid.reader σ = readExit σ := by
    show readStep codec σ = _
    unfold readStep
    simp only [hpc, hdec]
  rw [hs]
  exact ⟨rfl, rfl, rfl, fun sch => run_exited codec sch _ rfl⟩

/-! ## Test vectors for the library models -/

theorem base64Encode_vectors :
    base64Encode (ascii "Man") = ascii "TWFu" ∧ base64Encode (ascii "Ma") = ascii "TWE=" ∧
      base64Encode (ascii "M") = ascii "TQ==" ∧ base64Encode [] = [] := by
  decide

theorem RuneCountInString_vectors :
    RuneCountInString [0xE2, 0x82, 0xAC] = 1 ∧ RuneCountInString [0xFF, 0x82, 0xAC] = 3 ∧
      RuneCountInString [0x61, 0xC3, 0xA9] = 2 ∧ RuneCountInString [0xE2, 0x82] = 2 := by
  decide

end Tarantool
